import Mathlib

/-!
Verification of `spotlight/sequence/representations.py` (sequential
recommendation encoders: pooling, recurrent, causal-convolutional, and the
shared scorer).

Modelling conventions:
* Real-valued tensors are idealised as rational-valued (`ℚ`) rectangular
  nested lists, channel-major after the source's `permute(0, 2, 1)`:
  a per-sequence tensor is `List (List ℚ)` (embedding-channel × position) and
  a batch tensor is `List (List (List ℚ))`.
* `torch.cumsum`, `F.pad`, `Conv2d` with kernel `(k, 1)` / dilation `(d, 1)`,
  `BatchNorm2d`, `Tensor.squeeze(dim)` (a no-op unless the dimension has
  size 1) and the broadcast addition of the scorer's final `+` are
  numeric-backend primitives; each is modelled by its index-level semantics
  on the tensor slice it acts on.
* Embedding and bias tables (`ScaledEmbedding`, `ZeroEmbedding` from
  `spotlight.layers`) are consumed as lookup capabilities `ℕ → List ℚ` /
  `ℕ → ℚ` stored in the module structures.
-/

namespace Spotlight

/-- Padding sentinel item id (`PADDING_IDX = 0` in the source). -/
def PADDING_IDX : ℕ := 0

/-! ### Generic list helpers used by the tensor semantics -/

/-- Value of `(List.range n).map f` at index `i` (default `d` out of range). -/
theorem getD_range_map {α : Type} (f : ℕ → α) (n i : ℕ) (d : α) :
    ((List.range n).map f).getD i d = if i < n then f i else d := by
  by_cases h : i < n
  · rw [List.getD_eq_getElem?_getD]
    rw [List.getElem?_map, List.getElem?_range h]
    simp [h]
  · rw [List.getD_eq_getElem?_getD]
    rw [List.getElem?_map]
    rw [List.getElem?_eq_none (by simpa using Nat.le_of_not_lt h)]
    simp [h]

/-- Congruence for sums of mapped ranges. -/
theorem sum_range_map_congr (f g : ℕ → ℚ) (n : ℕ)
    (h : ∀ i, i < n → f i = g i) :
    ((List.range n).map f).sum = ((List.range n).map g).sum := by
  induction n with
  | zero => simp
  | succ m ih =>
      rw [List.range_succ]
      simp only [List.map_append, List.sum_append, List.map_cons, List.map_nil]
      rw [ih (fun i hi => h i (Nat.lt_succ_of_lt hi)), h m (Nat.lt_succ_self m)]

/-- Left zero-padding of one channel by `p` positions (`F.pad (p, 0)` along
the sequence axis). -/
def padLeft (p : ℕ) (xs : List ℚ) : List ℚ :=
  List.replicate p 0 ++ xs

theorem padLeft_length (p : ℕ) (xs : List ℚ) :
    (padLeft p xs).length = p + xs.length := by
  simp [padLeft]

theorem padLeft_getD (p : ℕ) (xs : List ℚ) (i : ℕ) :
    (padLeft p xs).getD i 0 = if i < p then 0 else xs.getD (i - p) 0 := by
  by_cases h : i < p
  · rw [padLeft, List.getD_eq_getElem?_getD,
      List.getElem?_append_left (by simpa using h)]
    simp [List.getElem?_replicate, h]
  · rw [padLeft, List.getD_eq_getElem?_getD,
      List.getElem?_append_right (by simpa using Nat.le_of_not_lt h)]
    simp [h, List.getD_eq_getElem?_getD]

/-- `torch.cumsum` along the sequence axis: output at index `i` is the sum of
the inputs at indices `0..i`. -/
def cumsum (xs : List ℚ) : List ℚ :=
  (List.range xs.length).map fun i =>
    ((List.range (i + 1)).map fun j => xs.getD j 0).sum

theorem cumsum_length (xs : List ℚ) : (cumsum xs).length = xs.length := by
  simp [cumsum]

theorem cumsum_getD (xs : List ℚ) (i : ℕ) (h : i < xs.length) :
    (cumsum xs).getD i 0 =
      ((List.range (i + 1)).map fun j => xs.getD j 0).sum := by
  rw [cumsum, getD_range_map]
  simp [h]

/-- Last element along the sequence axis (`x[:, :, -1]` slice value). -/
def lastD (xs : List ℚ) : ℚ := xs.getD (xs.length - 1) 0

theorem dropLast_getD (xs : List ℚ) (i : ℕ) (h : i + 1 < xs.length) :
    xs.dropLast.getD i 0 = xs.getD i 0 := by
  rw [List.getD_eq_getElem?_getD, List.getD_eq_getElem?_getD,
    List.getElem?_dropLast]
  rw [if_pos (by omega)]

/-! ### Pooling encoder (`PoolNet`) -/

/-- `PoolNet`: averaging encoder.  The embedding/bias tables are the
long-lived lookup capabilities owned by the instance. -/
structure PoolNet where
  embedding_dim : ℕ
  item_embeddings : ℕ → List ℚ
  item_biases : ℕ → ℚ

/-- `self.item_embeddings(item_sequences).permute(0, 2, 1)` for one sequence:
channel-major embedded sequence (channel × position). -/
def PoolNet.sequence_embeddings (m : PoolNet) (items : List ℕ) :
    List (List ℚ) :=
  (List.range m.embedding_dim).map fun c =>
    items.map fun i => (m.item_embeddings i).getD c 0

/-- `PoolNet.user_representation` for one sequence of the batch: left-pad the
embedded sequence by one zero step, take the cumulative sum, divide by the
cumulative count of nonzero entries plus one, and split the first `L`
positions from the last. -/
def PoolNet.user_representation (m : PoolNet) (items : List ℕ) :
    List (List ℚ) × List ℚ :=
  let sequence_embeddings :=
    (PoolNet.sequence_embeddings m items).map (padLeft 1)
  let sequence_embedding_sum := sequence_embeddings.map cumsum
  let non_padding_entries := sequence_embeddings.map fun ch =>
    cumsum (ch.map fun v => if v = 0 then 0 else 1)
  let user_representations := (List.range m.embedding_dim).map fun c =>
    (List.range (items.length + 1)).map fun i =>
      (sequence_embedding_sum.getD c []).getD i 0 /
        ((non_padding_entries.getD c []).getD i 0 + 1)
  (user_representations.map List.dropLast, user_representations.map lastD)

/-- Whole-batch `user_representation` (the source input is `[N, L]`; every
tensor operation acts pointwise in the batch dimension). -/
def PoolNet.user_representationBatch (m : PoolNet) (batch : List (List ℕ)) :
    List (List (List ℚ)) × List (List ℚ) :=
  (batch.map fun s => (PoolNet.user_representation m s).1,
   batch.map fun s => (PoolNet.user_representation m s).2)

/-- `self.item_embeddings(targets).permute(0, 2, 1)` for a batch of target
sequences. -/
def PoolNet.target_embedding (m : PoolNet) (targets : List (List ℕ)) :
    List (List (List ℚ)) :=
  targets.map fun tseq =>
    (List.range m.embedding_dim).map fun c =>
      tseq.map fun j => (m.item_embeddings j).getD c 0

/-! ### The scorer (`forward`), shared verbatim by all three encoders -/

theorem getD_mem {α : Type} (xs : List α) (n : ℕ) (h : n < xs.length)
    (d : α) : xs.getD n d ∈ xs := by
  rw [List.getD_eq_getElem?_getD, List.getElem?_eq_getElem h]
  exact List.getElem_mem h

/-- `self.item_biases(targets)`: embedding lookup with one output dimension
on an `(N, L)` id tensor, giving shape `(N, L, 1)`. -/
def biasLookup (bias : ℕ → ℚ) (targets : List (List ℕ)) :
    List (List (List ℚ)) :=
  targets.map fun tseq => tseq.map fun j => [bias j]

/-- `(user_representations * target_embedding).sum(1)`: the `(N, L)` matrix
of channel-dimension dot products. -/
def dotProducts (D : ℕ) (temb u : List (List (List ℚ)))
    (targets : List (List ℕ)) : List (List ℚ) :=
  (List.range targets.length).map fun n =>
    (List.range (targets.getD n []).length).map fun t =>
      ((List.range D).map fun c =>
        ((u.getD n []).getD c []).getD t 0 *
          (((temb.getD n []).getD c []).getD t 0)).sum

/-- `Tensor.squeeze(1)` on a rank-3 tensor: dimension 1 is removed exactly
when its size is 1, otherwise the call is a no-op. -/
def squeeze1R3 (x : List (List (List ℚ))) :
    List (List ℚ) ⊕ List (List (List ℚ)) :=
  if (x.getD 0 []).length = 1 then Sum.inl (x.map fun row => row.getD 0 [])
  else Sum.inr x

/-- `Tensor.squeeze(1)` on a rank-2 tensor. -/
def squeeze1R2 (x : List (List ℚ)) : List ℚ ⊕ List (List ℚ) :=
  if (x.getD 0 []).length = 1 then Sum.inl (x.map fun row => row.getD 0 0)
  else Sum.inr x

/-- One dimension of the backend's broadcasting rule: equal sizes agree, a
size-1 dimension stretches to the other size, and any other pair is a
runtime error. -/
def bcDim (a b : ℕ) : Option ℕ :=
  if a = b then some a
  else if a = 1 then some b
  else if b = 1 then some a
  else none

/-- Index into a possibly stretched dimension: a size-1 dimension is always
read at index 0. -/
def bcIdx (size i : ℕ) : ℕ := if size = 1 then 0 else i

/-- Broadcast addition of a rank-3 and a rank-2 tensor (shapes right-aligned,
the rank-2 operand behaving as `(1, y0, y1)`). -/
def addR3R2 (x : List (List (List ℚ))) (y : List (List ℚ)) :
    Except String (List (List (List ℚ))) :=
  match bcDim x.length 1, bcDim (x.getD 0 []).length y.length,
      bcDim ((x.getD 0 []).getD 0 []).length (y.getD 0 []).length with
  | some d0, some d1, some d2 =>
      Except.ok ((List.range d0).map fun i => (List.range d1).map fun j =>
        (List.range d2).map fun k =>
          ((x.getD (bcIdx x.length i) []).getD
              (bcIdx (x.getD 0 []).length j) []).getD
            (bcIdx ((x.getD 0 []).getD 0 []).length k) 0 +
          (y.getD (bcIdx y.length j) []).getD
            (bcIdx (y.getD 0 []).length k) 0)
  | _, _, _ => Except.error "RuntimeError"

/-- Broadcast addition of a rank-3 and a rank-1 tensor (the rank-1 operand
behaving as `(1, 1, y0)`). -/
def addR3R1 (x : List (List (List ℚ))) (y : List ℚ) :
    Except String (List (List (List ℚ))) :=
  match bcDim x.length 1, bcDim (x.getD 0 []).length 1,
      bcDim ((x.getD 0 []).getD 0 []).length y.length with
  | some d0, some d1, some d2 =>
      Except.ok ((List.range d0).map fun i => (List.range d1).map fun j =>
        (List.range d2).map fun k =>
          ((x.getD (bcIdx x.length i) []).getD
              (bcIdx (x.getD 0 []).length j) []).getD
            (bcIdx ((x.getD 0 []).getD 0 []).length k) 0 +
          y.getD (bcIdx y.length k) 0)
  | _, _, _ => Except.error "RuntimeError"

/-- Broadcast addition of two rank-2 tensors. -/
def addR2R2 (x y : List (List ℚ)) : Except String (List (List ℚ)) :=
  match bcDim x.length y.length,
      bcDim (x.getD 0 []).length (y.getD 0 []).length with
  | some d0, some d1 =>
      Except.ok ((List.range d0).map fun i => (List.range d1).map fun j =>
        (x.getD (bcIdx x.length i) []).getD
          (bcIdx (x.getD 0 []).length j) 0 +
        (y.getD (bcIdx y.length i) []).getD
          (bcIdx (y.getD 0 []).length j) 0)
  | _, _ => Except.error "RuntimeError"

/-- Broadcast addition of a rank-2 and a rank-1 tensor (the rank-1 operand
behaving as `(1, y0)`). -/
def addR2R1 (x : List (List ℚ)) (y : List ℚ) :
    Except String (List (List ℚ)) :=
  match bcDim x.length 1, bcDim (x.getD 0 []).length y.length with
  | some d0, some d1 =>
      Except.ok ((List.range d0).map fun i => (List.range d1).map fun j =>
        (x.getD (bcIdx x.length i) []).getD
          (bcIdx (x.getD 0 []).length j) 0 +
        y.getD (bcIdx y.length j) 0)
  | _, _ => Except.error "RuntimeError"

/-- Result of the scorer: rank 2 or rank 3 depending on which `squeeze(1)`
calls fired and how the final addition broadcast. -/
inductive ScorerOut where
  | mat2 : List (List ℚ) → ScorerOut
  | mat3 : List (List (List ℚ)) → ScorerOut

/-- Body shared verbatim by `PoolNet.forward`, `LSTMNet.forward` and
`CNNNet.forward` (the three method bodies are textually identical in the
source): `target_bias = self.item_biases(targets).squeeze(1)`,
`dot = (user_representations * target_embedding).sum(1).squeeze(1)`, and
the returned `target_bias + dot` is a broadcast addition.  `squeeze(1)`
removes dimension 1 only when its size is 1, so for more than one target
per sequence the bias keeps shape `(N, L, 1)` and the addition broadcasts
it against the `(N, L)` dot products. -/
def scorerForward (D : ℕ) (bias : ℕ → ℚ) (temb : List (List (List ℚ)))
    (user_representations : List (List (List ℚ)))
    (targets : List (List ℕ)) : Except String ScorerOut :=
  match squeeze1R3 (biasLookup bias targets),
      squeeze1R2 (dotProducts D temb user_representations targets) with
  | Sum.inl b2, Sum.inl d1 => (addR2R1 b2 d1).map ScorerOut.mat2
  | Sum.inl b2, Sum.inr d2 => (addR2R2 b2 d2).map ScorerOut.mat2
  | Sum.inr b3, Sum.inl d1 => (addR3R1 b3 d1).map ScorerOut.mat3
  | Sum.inr b3, Sum.inr d2 => (addR3R2 b3 d2).map ScorerOut.mat3

/-- `PoolNet.forward` (the scorer). -/
def PoolNet.forward (m : PoolNet) (user_representations : List (List (List ℚ)))
    (targets : List (List ℕ)) : Except String ScorerOut :=
  scorerForward m.embedding_dim m.item_biases
    (PoolNet.target_embedding m targets) user_representations targets

/-! ### Recurrent encoder (`LSTMNet`) -/

/-- `LSTMNet`: recurrent encoder.  The single-layer recurrent cell
(`nn.LSTM` with `hidden_size = embedding_dim`) is a numeric-backend
primitive; it is carried as a step function from `(hidden, cell)` state and
input vector to the next state. -/
structure LSTMNet where
  embedding_dim : ℕ
  item_embeddings : ℕ → List ℚ
  item_biases : ℕ → ℚ
  lstm : (List ℚ × List ℚ) → List ℚ → (List ℚ × List ℚ)

/-- Hidden-state sequence of the left-to-right recurrence: output `t` is the
hidden component of the state after consuming inputs `0..t`. -/
def lstmOutputs (cell : (List ℚ × List ℚ) → List ℚ → (List ℚ × List ℚ)) :
    (List ℚ × List ℚ) → List (List ℚ) → List (List ℚ)
  | _, [] => []
  | st, x :: xs =>
      let st' := cell st x
      st'.1 :: lstmOutputs cell st' xs

theorem lstmOutputs_length (cell) (st : List ℚ × List ℚ)
    (xs : List (List ℚ)) : (lstmOutputs cell st xs).length = xs.length := by
  induction xs generalizing st with
  | nil => rfl
  | cons x xs ih => simp [lstmOutputs, ih]

/-- If two input sequences agree on their first `n` entries, the recurrence
produces the same first `n` hidden states. -/
theorem lstmOutputs_take_congr (cell) (st : List ℚ × List ℚ) (n : ℕ)
    (xs ys : List (List ℚ)) (h : xs.take n = ys.take n) :
    (lstmOutputs cell st xs).take n = (lstmOutputs cell st ys).take n := by
  induction n generalizing st xs ys with
  | zero => simp
  | succ m ih =>
      cases xs with
      | nil => cases ys with
          | nil => rfl
          | cons y ys => simp at h
      | cons x xs =>
          cases ys with
          | nil => simp at h
          | cons y ys =>
              simp only [List.take_succ_cons, List.cons.injEq] at h
              obtain ⟨rfl, hrest⟩ := h
              simp only [lstmOutputs, List.take_succ_cons, List.cons.injEq]
              exact ⟨trivial, ih (cell st x) xs ys hrest⟩

/-- Embedded input stream fed to the recurrent cell for one sequence: the
source pads the channel-major embeddings with one zero step from the left and
permutes back to time-major, so the stream is a zero vector followed by the
item embeddings. -/
def LSTMNet.sequence_embeddings (m : LSTMNet) (items : List ℕ) :
    List (List ℚ) :=
  List.replicate m.embedding_dim 0 ::
    items.map fun i =>
      (List.range m.embedding_dim).map fun c => (m.item_embeddings i).getD c 0

/-- `LSTMNet.user_representation` for one sequence: run the recurrence over
the zero-prepended embedding stream from the all-zero initial state, permute
the hidden states to channel-major, and split the first `L` from the last. -/
def LSTMNet.user_representation (m : LSTMNet) (items : List ℕ) :
    List (List ℚ) × List ℚ :=
  let hiddens := lstmOutputs m.lstm
    (List.replicate m.embedding_dim 0, List.replicate m.embedding_dim 0)
    (LSTMNet.sequence_embeddings m items)
  let user_representations := (List.range m.embedding_dim).map fun c =>
    hiddens.map fun h => h.getD c 0
  (user_representations.map List.dropLast, user_representations.map lastD)

/-- Whole-batch `user_representation` for the recurrent encoder. -/
def LSTMNet.user_representationBatch (m : LSTMNet) (batch : List (List ℕ)) :
    List (List (List ℚ)) × List (List ℚ) :=
  (batch.map fun s => (LSTMNet.user_representation m s).1,
   batch.map fun s => (LSTMNet.user_representation m s).2)

/-- `self.item_embeddings(targets).permute(0, 2, 1)` for the recurrent
scorer. -/
def LSTMNet.target_embedding (m : LSTMNet) (targets : List (List ℕ)) :
    List (List (List ℚ)) :=
  targets.map fun tseq =>
    (List.range m.embedding_dim).map fun c =>
      tseq.map fun j => (m.item_embeddings j).getD c 0

/-- `LSTMNet.forward`: identical scorer body to `PoolNet.forward`. -/
def LSTMNet.forward (m : LSTMNet)
    (user_representations : List (List (List ℚ)))
    (targets : List (List ℕ)) : Except String ScorerOut :=
  scorerForward m.embedding_dim m.item_biases
    (LSTMNet.target_embedding m targets) user_representations targets

/-! ### Causal convolutional encoder (`CNNNet`) -/

/-- Receptive field width of one convolutional layer,
`kernel_width + (kernel_width - 1) * (dilation - 1)` as computed in
`CNNNet.user_representation`. -/
def receptive_field_width (kernel_width dilation : ℕ) : ℕ :=
  kernel_width + (kernel_width - 1) * (dilation - 1)

/-- Binary-search integer square root with structural fuel (kernel-reducible
replacement for the backend's square root on naturals). -/
def natSqrtAux (n : ℕ) : ℕ → ℕ → ℕ → ℕ
  | 0, lo, _ => lo
  | fuel + 1, lo, hi =>
      let mid := (lo + hi) / 2
      if mid = lo then lo
      else if mid * mid ≤ n then natSqrtAux n fuel mid hi
      else natSqrtAux n fuel lo mid

/-- Integer square root (floor). -/
def natSqrt (n : ℕ) : ℕ := natSqrtAux n (n + 2) 0 (n + 1)

/-- Square root on rationals.  This stands for the numeric backend's real
square root; it is exact on perfect-square nonnegative rationals, which is the
only kind of input it is ever applied to in the concrete evaluations of this
development. -/
def sqrtQ (q : ℚ) : ℚ := (natSqrt q.num.toNat : ℚ) / (natSqrt q.den : ℚ)

/-- `F.relu`, the piecewise-linear nonlinearity. -/
def relu (x : ℚ) : ℚ := max 0 x

/-- A Python value that is either an `int` or a list, as accepted by
`_to_iterable` for `kernel_width` and `dilation`. -/
inductive IntOrList where
  | scalar (val : ℕ)
  | list (val : List ℕ)

/-- `_to_iterable(val, num)`: an iterable is returned unchanged (no length
validation is performed); a scalar is broadcast to a `num`-length tuple. -/
def to_iterable : IntOrList → ℕ → List ℕ
  | .list val, _ => val
  | .scalar val, num => List.replicate num val

/-- The two nonlinearity names accepted by the `CNNNet` constructor. -/
inductive NonlinearityKind where
  | tanh
  | relu
deriving DecidableEq

/-- The constructor's nonlinearity dispatch: `'tanh'` and `'relu'` are
accepted, anything else raises
`ValueError('Nonlinearity must be one of (tanh, relu)')`. -/
def CNNNet.initNonlinearity (nonlinearity : String) :
    Except String NonlinearityKind :=
  if nonlinearity = "tanh" then .ok .tanh
  else if nonlinearity = "relu" then .ok .relu
  else .error "Nonlinearity must be one of (tanh, relu)"

/-- Configuration produced by a successful `CNNNet.__init__`:
the broadcast per-layer lists and the number of convolutional layers actually
created (`zip` of the kernel-width and dilation lists). -/
structure CNNConfig where
  embedding_dim : ℕ
  kernel_width : List ℕ
  dilation : List ℕ
  nonlinearity : NonlinearityKind
  residual_connections : Bool
  batch_norm : Bool
  num_cnn_layers : ℕ
deriving DecidableEq

/-- `CNNNet.__init__`: runs `_to_iterable` on `kernel_width` and `dilation`
(no length check), then validates only the nonlinearity name.  The
convolutional layers are built from `zip(self.kernel_width, self.dilation)`,
which silently truncates to the shorter list. -/
def CNNNet.init (embedding_dim : ℕ) (kernel_width dilation : IntOrList)
    (num_layers : ℕ) (nonlinearity : String)
    (residual_connections batch_norm : Bool) : Except String CNNConfig :=
  let kw := to_iterable kernel_width num_layers
  let dil := to_iterable dilation num_layers
  match CNNNet.initNonlinearity nonlinearity with
  | .error e => .error e
  | .ok nl =>
      .ok { embedding_dim := embedding_dim,
            kernel_width := kw,
            dilation := dil,
            nonlinearity := nl,
            residual_connections := residual_connections,
            batch_norm := batch_norm,
            num_cnn_layers := (kw.zip dil).length }

/-- Parameters of one `nn.Conv2d(embedding_dim, embedding_dim, (k, 1),
dilation=(d, 1))` layer. -/
structure ConvLayer where
  weight : ℕ → ℕ → ℕ → ℚ
  bias : ℕ → ℚ

def defaultConvLayer : ConvLayer :=
  { weight := fun _ _ _ => 0, bias := fun _ => 0 }

/-- One `nn.BatchNorm2d(embedding_dim)` layer: per-channel affine parameters
and the persistent running statistics updated during training-mode forward
passes (`eps = 1e-5`, `momentum = 0.1` are the torch defaults used by the
source). -/
structure BNLayer where
  weight : ℕ → ℚ
  bias : ℕ → ℚ
  running_mean : ℕ → ℚ
  running_var : ℕ → ℚ
  eps : ℚ
  momentum : ℚ

/-- A freshly initialised `BatchNorm2d` layer (`weight = 1`, `bias = 0`,
`running_mean = 0`, `running_var = 1`). -/
def defaultBNLayer : BNLayer :=
  { weight := fun _ => 1, bias := fun _ => 0,
    running_mean := fun _ => 0, running_var := fun _ => 1,
    eps := 1 / 100000, momentum := 1 / 10 }

/-- Causal 1-D convolution of one batch element (`nn.Conv2d` with kernel
`(k, 1)` and dilation `(d, 1)` applied to the channel-major, already padded
sequence): output channel `c` at position `t` is the bias plus the
cross-correlation over all input channels and kernel taps. -/
def convLayerApply (D : ℕ) (layer : ConvLayer) (kernel_width dilation : ℕ)
    (x : List (List ℚ)) : List (List ℚ) :=
  (List.range D).map fun c =>
    (List.range ((x.getD 0 []).length - dilation * (kernel_width - 1))).map
      fun t =>
        layer.bias c +
          ((List.range D).map fun c2 =>
            ((List.range kernel_width).map fun j =>
              layer.weight c c2 j *
                (x.getD c2 []).getD (t + j * dilation) 0).sum).sum

/-- All values of channel `c` across the batch and sequence positions — the
population over which `BatchNorm2d` computes its training-mode statistics. -/
def bnChannelValues (xs : List (List (List ℚ))) (c : ℕ) : List ℚ :=
  (xs.map fun chans => chans.getD c []).flatten

/-- Training-mode `BatchNorm2d` on a batch tensor `[N, C, T, 1]`: each
channel is normalised by the biased mean/variance of that channel across the
whole batch and all sequence positions, then scaled and shifted by the
per-channel affine parameters; the layer's running statistics are updated
with momentum `0.1` (the variance update uses the unbiased estimate, as in
torch).  Returns the normalised tensor and the updated layer. -/
def batchNormTrain (bn : BNLayer) (D : ℕ) (xs : List (List (List ℚ))) :
    List (List (List ℚ)) × BNLayer :=
  let count := fun c => ((bnChannelValues xs c).length : ℚ)
  let mean := fun c => (bnChannelValues xs c).sum / count c
  let varB := fun c =>
    ((bnChannelValues xs c).map fun v => (v - mean c) ^ 2).sum / count c
  let y := xs.map fun chans =>
    (List.range D).map fun c =>
      (chans.getD c []).map fun v =>
        bn.weight c * ((v - mean c) / sqrtQ (varB c + bn.eps)) + bn.bias c
  (y,
   { bn with
     running_mean := fun c =>
       (1 - bn.momentum) * bn.running_mean c + bn.momentum * mean c,
     running_var := fun c =>
       (1 - bn.momentum) * bn.running_var c +
         bn.momentum * (varB c * (count c / (count c - 1))) })

/-- Elementwise sum of two batch tensors (residual addition). -/
def addTensors (x y : List (List (List ℚ))) : List (List (List ℚ)) :=
  List.zipWith
    (fun a b => List.zipWith (fun p q => List.zipWith (· + ·) p q) a b) x y

/-- `CNNNet`: stacked causal atrous convolution encoder.  `kernel_width` and
`dilation` are the per-layer lists produced by `_to_iterable`;
`nonlinearity` is the elementwise backend function selected at construction
(`F.tanh` or `F.relu`); `cnn_layers` and `bn` hold the long-lived layer
parameters. -/
structure CNNNet where
  embedding_dim : ℕ
  kernel_width : List ℕ
  dilation : List ℕ
  nonlinearity : ℚ → ℚ
  residual_connections : Bool
  batch_norm : Bool
  item_embeddings : ℕ → List ℚ
  item_biases : ℕ → ℚ
  cnn_layers : List ConvLayer
  bn : List BNLayer

/-- Channel-major embedded batch,
`self.item_embeddings(item_sequences).permute(0, 2, 1)`. -/
def CNNNet.sequence_embeddings (m : CNNNet)
    (item_sequences : List (List ℕ)) : List (List (List ℚ)) :=
  item_sequences.map fun items =>
    (List.range m.embedding_dim).map fun c =>
      items.map fun i => (m.item_embeddings i).getD c 0

/-- The `for i, (cnn_layer, kernel_width, dilation) in
enumerate(zip(self.cnn_layers[1:], ...))` loop of
`CNNNet.user_representation`: note that the batch-norm layer applied at loop
index `i` is `self.bn[i]`, i.e. the bookkeeping index of the *previous*
convolutional layer. -/
def cnnLayersLoop (m : CNNNet) :
    List (ConvLayer × ℕ × ℕ) → ℕ → List (List (List ℚ)) → List BNLayer →
      List (List (List ℚ)) × List BNLayer
  | [], _, x, bns => (x, bns)
  | (cnn_layer, kernel_width, dilation) :: rest, i, x, bns =>
      let residual := x
      let x1 := x.map fun chans =>
        chans.map (padLeft (receptive_field_width kernel_width dilation - 1))
      let x2 := x1.map
        (convLayerApply m.embedding_dim cnn_layer kernel_width dilation)
      let x3 := x2.map fun chans => chans.map (List.map m.nonlinearity)
      let r :=
        if m.batch_norm then
          let b := batchNormTrain (bns.getD i defaultBNLayer)
            m.embedding_dim x3
          (b.1, bns.set i b.2)
        else (x3, bns)
      let x5 := if m.residual_connections then addTensors r.1 residual
        else r.1
      cnnLayersLoop m rest (i + 1) x5 r.2

/-- `CNNNet.user_representation` on a batch: embed, left-pad by the first
layer's receptive field width, apply the first convolution + nonlinearity
(+ batch norm, + singly-left-padded residual), then run the remaining layers,
and split positions `0..L-1` from position `L`.  The second component of the
result is the list of batch-norm layers after their training-mode
running-statistics updates. -/
def CNNNet.user_representation (m : CNNNet)
    (item_sequences : List (List ℕ)) :
    (List (List (List ℚ)) × List (List ℚ)) × List BNLayer :=
  let sequence_embeddings := CNNNet.sequence_embeddings m item_sequences
  let k0 := m.kernel_width.getD 0 0
  let d0 := m.dilation.getD 0 0
  let x0 := sequence_embeddings.map fun chans =>
    chans.map (padLeft (receptive_field_width k0 d0))
  let x1 := x0.map
    (convLayerApply m.embedding_dim (m.cnn_layers.getD 0 defaultConvLayer)
      k0 d0)
  let x2 := x1.map fun chans => chans.map (List.map m.nonlinearity)
  let r0 :=
    if m.batch_norm then
      let b := batchNormTrain (m.bn.getD 0 defaultBNLayer)
        m.embedding_dim x2
      (b.1, m.bn.set 0 b.2)
    else (x2, m.bn)
  let x4 :=
    if m.residual_connections then
      addTensors r0.1 (sequence_embeddings.map fun chans =>
        chans.map (padLeft 1))
    else r0.1
  let rest := (m.cnn_layers.drop 1).zip
    ((m.kernel_width.drop 1).zip (m.dilation.drop 1))
  let r := cnnLayersLoop m rest 0 x4 r0.2
  ((r.1.map fun chans => chans.map List.dropLast,
    r.1.map fun chans => chans.map lastD), r.2)

/-- `self.item_embeddings(targets).permute(0, 2, 1)` for the convolutional
scorer. -/
def CNNNet.target_embedding (m : CNNNet) (targets : List (List ℕ)) :
    List (List (List ℚ)) :=
  targets.map fun tseq =>
    (List.range m.embedding_dim).map fun c =>
      tseq.map fun j => (m.item_embeddings j).getD c 0

/-- `CNNNet.forward`: identical scorer body to `PoolNet.forward`. -/
def CNNNet.forward (m : CNNNet)
    (user_representations : List (List (List ℚ)))
    (targets : List (List ℕ)) : Except String ScorerOut :=
  scorerForward m.embedding_dim m.item_biases
    (CNNNet.target_embedding m targets) user_representations targets

/-! ### Helper lemmas for the proofs -/

theorem getD_map_lt {α β : Type} (f : α → β) (l : List α) (i : ℕ)
    (h : i < l.length) (d : α) (d' : β) :
    (l.map f).getD i d' = f (l.getD i d) := by
  rw [List.getD_eq_getElem?_getD, List.getElem?_map,
    List.getElem?_eq_getElem h, List.getD_eq_getElem?_getD,
    List.getElem?_eq_getElem h]
  rfl

theorem getD_oob {α : Type} (l : List α) (i : ℕ) (h : l.length ≤ i)
    (d : α) : l.getD i d = d := by
  rw [List.getD_eq_getElem?_getD, List.getElem?_eq_none h]
  rfl

theorem take_eq_of_getD {α : Type} (xs ys : List α) (n : ℕ) (d : α)
    (hxy : ∀ j, j < n → xs.getD j d = ys.getD j d)
    (hn : n ≤ xs.length) (hn' : n ≤ ys.length) :
    xs.take n = ys.take n := by
  apply List.ext_getElem?
  intro i
  by_cases hi : i < n
  · rw [List.getElem?_take_of_lt hi, List.getElem?_take_of_lt hi]
    have := hxy i hi
    rw [List.getD_eq_getElem?_getD, List.getD_eq_getElem?_getD,
      List.getElem?_eq_getElem (Nat.lt_of_lt_of_le hi hn),
      List.getElem?_eq_getElem (Nat.lt_of_lt_of_le hi hn')] at this
    rw [List.getElem?_eq_getElem (Nat.lt_of_lt_of_le hi hn),
      List.getElem?_eq_getElem (Nat.lt_of_lt_of_le hi hn')]
    simpa using this
  · rw [List.getElem?_take_eq_none (by omega),
      List.getElem?_take_eq_none (by omega)]

theorem getD_eq_of_take_eq {α : Type} (xs ys : List α) (n i : ℕ) (d : α)
    (h : xs.take n = ys.take n) (hi : i < n) :
    xs.getD i d = ys.getD i d := by
  rw [List.getD_eq_getElem?_getD, List.getD_eq_getElem?_getD]
  rw [← @List.getElem?_take_of_lt _ xs n i hi,
    ← @List.getElem?_take_of_lt _ ys n i hi, h]

theorem zipWith_map_same {α β γ δ : Type} (f : β → γ → δ) (g : α → β)
    (h : α → γ) (l : List α) :
    List.zipWith f (l.map g) (l.map h) = l.map fun a => f (g a) (h a) := by
  induction l with
  | nil => rfl
  | cons x xs ih => simp [ih]

theorem sum_range_succ_shift (f : ℕ → ℚ) (n : ℕ) :
    ((List.range (n + 1)).map f).sum =
      f 0 + ((List.range n).map fun j => f (j + 1)).sum := by
  rw [List.range_succ_eq_map, List.map_cons, List.sum_cons, List.map_map]
  rfl

/-! ### Pooling encoder: pointwise value of the representations -/

/-- The `L + 1` pooled states for one channel, as computed inside
`PoolNet.user_representation`: at position `t`, the cumulative embedding sum
of the first `t` items divided by one plus the cumulative count of *nonzero
embedding entries* of that channel among the first `t` items. -/
theorem cumsum_padLeft_one_getD (xs : List ℚ) (t : ℕ) (ht : t ≤ xs.length) :
    (cumsum (padLeft 1 xs)).getD t 0 =
      ((List.range t).map fun j => xs.getD j 0).sum := by
  have htp : t < (padLeft 1 xs).length := by rw [padLeft_length]; omega
  rw [cumsum_getD _ t htp, sum_range_succ_shift]
  have h0 : (padLeft 1 xs).getD 0 0 = 0 := by
    rw [padLeft_getD]; simp
  rw [h0, zero_add]
  apply sum_range_map_congr
  intro j hj
  rw [padLeft_getD, if_neg (by omega), Nat.add_sub_cancel]

theorem pool_rep_point (m : PoolNet) (items : List ℕ) (c t : ℕ)
    (hc : c < m.embedding_dim) (ht : t ≤ items.length) :
    (((PoolNet.sequence_embeddings m items).map (padLeft 1) |>.map
        cumsum).getD c []).getD t 0 /
      ((((PoolNet.sequence_embeddings m items).map (padLeft 1) |>.map
          fun ch => cumsum (ch.map fun v => if v = 0 then 0 else 1)).getD
        c []).getD t 0 + 1) =
    ((List.range t).map fun s =>
        (m.item_embeddings (items.getD s 0)).getD c 0).sum /
      (((List.range t).map fun s =>
        if (m.item_embeddings (items.getD s 0)).getD c 0 = 0 then 0
        else 1).sum + 1) := by
  have hchan :
      (PoolNet.sequence_embeddings m items).getD c [] =
        items.map fun i => (m.item_embeddings i).getD c 0 := by
    rw [PoolNet.sequence_embeddings, getD_range_map, if_pos hc]
  have hlen : ((PoolNet.sequence_embeddings m items).getD c []).length =
      items.length := by
    rw [hchan]; simp
  have hclt : c < (PoolNet.sequence_embeddings m items).length := by
    rw [PoolNet.sequence_embeddings]; simpa using hc
  have hval : ∀ j, j < t →
      ((PoolNet.sequence_embeddings m items).getD c []).getD j 0 =
        (m.item_embeddings (items.getD j 0)).getD c 0 := by
    intro j hj
    rw [hchan]
    exact getD_map_lt _ items j (by omega) 0 0
  -- numerator
  have hnum :
      (((PoolNet.sequence_embeddings m items).map (padLeft 1) |>.map
          cumsum).getD c []).getD t 0 =
        ((List.range t).map fun s =>
          (m.item_embeddings (items.getD s 0)).getD c 0).sum := by
    rw [List.map_map,
        getD_map_lt (cumsum ∘ padLeft 1) _ c hclt []]
    show (cumsum (padLeft 1 ((PoolNet.sequence_embeddings m items).getD
      c []))).getD t 0 = _
    have hb : t ≤ ((PoolNet.sequence_embeddings m items).getD c []).length :=
      by omega
    rw [cumsum_padLeft_one_getD _ t hb]
    exact sum_range_map_congr _ _ t hval
  -- denominator
  have hmap : ((padLeft 1 ((PoolNet.sequence_embeddings m items).getD
      c [])).map fun v => if v = 0 then 0 else (1 : ℚ)) =
      padLeft 1 (((PoolNet.sequence_embeddings m items).getD c []).map
        fun v => if v = 0 then 0 else 1) := by
    rw [padLeft, padLeft, List.map_append]
    simp
  have hden :
      ((((PoolNet.sequence_embeddings m items).map (padLeft 1) |>.map
          fun ch => cumsum (ch.map fun v => if v = 0 then 0 else 1)).getD
        c []).getD t 0) =
        ((List.range t).map fun s =>
          if (m.item_embeddings (items.getD s 0)).getD c 0 = 0 then 0
          else 1).sum := by
    rw [List.map_map, getD_map_lt _ _ c hclt []]
    show (cumsum ((padLeft 1 ((PoolNet.sequence_embeddings m items).getD
      c [])).map fun v => if v = 0 then 0 else 1)).getD t 0 = _
    have hb2 : t ≤ (((PoolNet.sequence_embeddings m items).getD c []).map
        fun v => if v = 0 then 0 else (1 : ℚ)).length := by
      rw [List.length_map, hlen]; omega
    rw [hmap, cumsum_padLeft_one_getD _ t hb2]
    apply sum_range_map_congr
    intro j hj
    have hj2 : j < ((PoolNet.sequence_embeddings m items).getD c []).length :=
      by omega
    rw [getD_map_lt _ _ j hj2 0, hval j hj]
  rw [hnum, hden]

/-- The per-channel pooled state list named `user_representations` in the
source (all `L + 1` positions, before the split). -/
def poolStates (m : PoolNet) (items : List ℕ) (c : ℕ) : List ℚ :=
  (List.range (items.length + 1)).map fun i =>
    ((((PoolNet.sequence_embeddings m items).map (padLeft 1)).map
      cumsum).getD c []).getD i 0 /
    (((((PoolNet.sequence_embeddings m items).map (padLeft 1)).map fun ch =>
      cumsum (ch.map fun v => if v = 0 then 0 else 1)).getD c []).getD
        i 0 + 1)

theorem pool_userRep_fst (m : PoolNet) (items : List ℕ) :
    (PoolNet.user_representation m items).1 =
      ((List.range m.embedding_dim).map (poolStates m items)).map
        List.dropLast := rfl

theorem pool_userRep_snd (m : PoolNet) (items : List ℕ) :
    (PoolNet.user_representation m items).2 =
      ((List.range m.embedding_dim).map (poolStates m items)).map lastD :=
  rfl

/-- Pointwise value of `all_representations` for the pooling encoder. -/
theorem pool_allReps_getD (m : PoolNet) (items : List ℕ) (c t : ℕ)
    (hc : c < m.embedding_dim) (ht : t < items.length) :
    (((PoolNet.user_representation m items).1.getD c []).getD t 0) =
      ((List.range t).map fun s =>
        (m.item_embeddings (items.getD s 0)).getD c 0).sum /
      (((List.range t).map fun s =>
        if (m.item_embeddings (items.getD s 0)).getD c 0 = 0 then 0
        else 1).sum + 1) := by
  rw [pool_userRep_fst, List.map_map,
    getD_range_map (List.dropLast ∘ poolStates m items) m.embedding_dim c [],
    if_pos hc]
  show (List.dropLast (poolStates m items c)).getD t 0 = _
  rw [dropLast_getD _ t (by simp [poolStates]; omega)]
  rw [poolStates, getD_range_map, if_pos (by omega)]
  exact pool_rep_point m items c t hc (Nat.le_of_lt ht)

/-- Pointwise value of `final_representation` for the pooling encoder. -/
theorem pool_final_getD (m : PoolNet) (items : List ℕ) (c : ℕ)
    (hc : c < m.embedding_dim) :
    ((PoolNet.user_representation m items).2.getD c 0) =
      ((List.range items.length).map fun s =>
        (m.item_embeddings (items.getD s 0)).getD c 0).sum /
      (((List.range items.length).map fun s =>
        if (m.item_embeddings (items.getD s 0)).getD c 0 = 0 then 0
        else 1).sum + 1) := by
  rw [pool_userRep_snd, List.map_map,
    getD_range_map (lastD ∘ poolStates m items) m.embedding_dim c 0,
    if_pos hc]
  show lastD (poolStates m items c) = _
  rw [lastD]
  have hlen : (poolStates m items c).length = items.length + 1 := by
    simp [poolStates]
  rw [hlen, Nat.add_sub_cancel]
  rw [poolStates, getD_range_map, if_pos (by omega)]
  exact pool_rep_point m items c items.length hc (Nat.le_refl _)

/-! ### Concrete instances used in counterexamples and witnesses -/

/-- Pooling module for the spec's concrete example: `D = 1`, `e5 = 2.0`,
`e7 = 3.0`, padding id mapped to zero. -/
def poolC4 : PoolNet :=
  { embedding_dim := 1,
    item_embeddings := fun i =>
      if i = 5 then [2] else if i = 7 then [3] else [0],
    item_biases := fun _ => 0 }

/-- Pooling module with `D = 2` where the real item `1` has a zero entry in
channel `1` of its embedding. -/
def poolTwo : PoolNet :=
  { embedding_dim := 2,
    item_embeddings := fun i =>
      if i = 1 then [2, 0] else if i = 2 then [1, 1] else [0, 0],
    item_biases := fun _ => 0 }

/-- Pooling module for the scorer's concrete example: target embedding
`[2, 1]`, target bias `0.5`. -/
def poolScore : PoolNet :=
  { embedding_dim := 2,
    item_embeddings := fun i => if i = 1 then [2, 1] else [0, 0],
    item_biases := fun i => if i = 1 then 1 / 2 else 0 }

/-- Recurrent module with `D = 1` and an additive cell, used in several
witnesses. -/
def lstmTiny : LSTMNet :=
  { embedding_dim := 1,
    item_embeddings := fun i => [(i : ℚ)],
    item_biases := fun _ => 0,
    lstm := fun st x => (List.zipWith (· + ·) st.1 x, st.2) }

theorem replicate_padding_getD (L s : ℕ) :
    (List.replicate L PADDING_IDX).getD s 0 = PADDING_IDX := by
  by_cases h : s < L
  · rw [List.getD_eq_getElem?_getD, List.getElem?_replicate_of_lt h]; rfl
  · rw [getD_oob _ s (by simpa using Nat.le_of_not_lt h)]; rfl

/-! ### C2: the scorer contract -/

theorem bcDim_one_right (a : ℕ) : bcDim a 1 = some a := by
  rw [bcDim]
  by_cases h : a = 1
  · rw [if_pos h]
  · rw [if_neg h, if_neg h, if_pos rfl]

theorem bcDim_one_left (b : ℕ) : bcDim 1 b = some b := by
  rw [bcDim]
  by_cases h : (1 : ℕ) = b
  · rw [if_pos h, h]
  · rw [if_neg h, if_pos rfl]

/-- C2: the claimed pointwise `[N, L]` scorer contract fails.  The bias
lookup has shape `(N, L, 1)` and `squeeze(1)` removes dimension 1 only when
its size is 1, so the returned `target_bias + dot` is a broadcast addition
of mismatched shapes.  Conjuncts: (1) at `N = L = 1` the spec's concrete
input does produce the claimed score `2.5`; (2) at `N = 1, L = 2` the
result is a rank-3 `(1, 2, 2)` tensor instead of the claimed `[1, 2]`
matrix; (3) at `N = 2, L = 3` the addition of `(2, 3, 1)` with `(2, 3)`
raises a runtime error; (4) in general, for any rectangular target batch
with `N ≥ 2`, `L ≥ 2` and `L ≠ N` the scorer raises instead of returning
scores. -/
theorem scorer_broadcast_bug :
    PoolNet.forward poolScore [[[1], [0]]] [[1]] =
      Except.ok (ScorerOut.mat2 [[5 / 2]]) ∧
    PoolNet.forward poolScore [[[1, 0], [0, 0]]] [[1, 1]] =
      Except.ok (ScorerOut.mat3 [[[5 / 2, 1 / 2], [5 / 2, 1 / 2]]]) ∧
    PoolNet.forward poolScore
        [[[1, 0, 0], [0, 0, 0]], [[0, 0, 0], [0, 0, 0]]]
        [[1, 1, 1], [1, 1, 1]] = Except.error "RuntimeError" ∧
    ∀ (m : PoolNet) (u : List (List (List ℚ))) (targets : List (List ℕ))
      (L : ℕ), 2 ≤ targets.length → 2 ≤ L →
      (∀ r ∈ targets, r.length = L) → L ≠ targets.length →
      PoolNet.forward m u targets = Except.error "RuntimeError" := by
  refine ⟨?_, ?_, ?_, ?_⟩
  · norm_num [PoolNet.forward, scorerForward, PoolNet.target_embedding,
      biasLookup, dotProducts, squeeze1R3, squeeze1R2, addR2R1, bcDim,
      bcIdx, poolScore, Except.map, List.getD_cons_zero, List.getD_cons_succ,
      show List.range 1 = [0] from by decide,
      show List.range 2 = [0, 1] from by decide]
  · norm_num [PoolNet.forward, scorerForward, PoolNet.target_embedding,
      biasLookup, dotProducts, squeeze1R3, squeeze1R2, addR3R2, bcDim,
      bcIdx, poolScore, Except.map, List.getD_cons_zero, List.getD_cons_succ,
      show List.range 1 = [0] from by decide,
      show List.range 2 = [0, 1] from by decide]
  · norm_num [PoolNet.forward, scorerForward, PoolNet.target_embedding,
      biasLookup, dotProducts, squeeze1R3, squeeze1R2, addR3R2, bcDim,
      bcIdx, poolScore, Except.map, List.getD_cons_zero, List.getD_cons_succ,
      show List.range 1 = [0] from by decide,
      show List.range 2 = [0, 1] from by decide,
      show List.range 3 = [0, 1, 2] from by decide]
  · intro m u targets L hN hL hrect hne
    have h00 : (targets.getD 0 []).length = L :=
      hrect _ (getD_mem targets 0 (by omega) [])
    have hblen : (biasLookup m.item_biases targets).length =
        targets.length := by
      rw [biasLookup, List.length_map]
    have hb1 : ((biasLookup m.item_biases targets).getD 0 []).length = L := by
      rw [biasLookup,
        getD_map_lt (fun tseq => tseq.map fun j => [m.item_biases j])
          targets 0 (by omega) [] [],
        List.length_map, h00]
    have hbsq : squeeze1R3 (biasLookup m.item_biases targets) =
        Sum.inr (biasLookup m.item_biases targets) := by
      rw [squeeze1R3, hb1, if_neg (by omega)]
    have hd1 : ((dotProducts m.embedding_dim
        (PoolNet.target_embedding m targets) u targets).getD 0 []).length =
        L := by
      rw [dotProducts, getD_range_map _ targets.length 0 [],
        if_pos (by omega), List.length_map, List.length_range, h00]
    have hdsq : squeeze1R2 (dotProducts m.embedding_dim
        (PoolNet.target_embedding m targets) u targets) =
        Sum.inr (dotProducts m.embedding_dim
          (PoolNet.target_embedding m targets) u targets) := by
      rw [squeeze1R2, hd1, if_neg (by omega)]
    have hy0 : (dotProducts m.embedding_dim
        (PoolNet.target_embedding m targets) u targets).length =
        targets.length := by
      rw [dotProducts, List.length_map, List.length_range]
    have hx2 : ((biasLookup m.item_biases targets).getD 0 []).getD 0 [] =
        [m.item_biases ((targets.getD 0 []).getD 0 0)] := by
      rw [biasLookup,
        getD_map_lt (fun tseq => tseq.map fun j => [m.item_biases j])
          targets 0 (by omega) [] [],
        getD_map_lt (fun j => [m.item_biases j]) (targets.getD 0 [])
          0 (by omega) 0 []]
    have hbc2 : bcDim L targets.length = none := by
      rw [bcDim, if_neg hne, if_neg (by omega), if_neg (by omega)]
    simp only [PoolNet.forward, scorerForward, hbsq, hdsq]
    simp only [addR3R2]
    rw [hblen, bcDim_one_right, hb1, hy0, hbc2, hx2,
      List.length_singleton, bcDim_one_left]
    rfl

/-- Witness for C2's universal conjunct: a `3 × 2` target batch makes the
scorer raise. -/
theorem scorer_broadcast_bug_witness :
    PoolNet.forward poolScore [] [[5, 7], [5, 7], [5, 7]] =
      Except.error "RuntimeError" :=
  scorer_broadcast_bug.2.2.2 poolScore [] [[5, 7], [5, 7], [5, 7]] 2
    (by decide) (by decide) (by decide) (by decide)

/-! ### C3: no length validation of explicit per-layer lists -/

/-- C3 counterexample: constructing with `kernel_width = [3, 5]` and
`num_layers = 3` does **not** fail — `_to_iterable` returns explicit lists
unchanged and `CNNNet.__init__` performs no length check, so construction
succeeds. -/
theorem kernel_list_mismatch_counterexample :
    (CNNNet.init 32 (.list [3, 5]) (.scalar 1) 3 "tanh" true true).isOk =
      true := by decide

/-- C3 amended: an explicit per-layer list whose length differs from
`num_layers` is accepted silently; the list is kept as-is, the scalar
parameter is broadcast to `num_layers` entries, and the number of
convolutional layers becomes the length of `zip(kernel_width, dilation)`
(here `2`), truncating to the shorter list. -/
theorem to_iterable_no_length_check :
    CNNNet.init 32 (.list [3, 5]) (.scalar 1) 3 "tanh" true true =
      .ok { embedding_dim := 32, kernel_width := [3, 5],
            dilation := [1, 1, 1], nonlinearity := .tanh,
            residual_connections := true, batch_norm := true,
            num_cnn_layers := 2 } := rfl

/-! ### C8: the nonlinearity name is the only validated input -/

/-- C8: `'tanh'` and `'relu'` are accepted by the constructor; any other
nonlinearity name (e.g. `'sigmoid'`) fails construction immediately with a
configuration error; and for every combination of the remaining arguments,
construction succeeds exactly when the nonlinearity name is valid — the
nonlinearity is the only validated input. -/
theorem nonlinearity_validation :
    CNNNet.initNonlinearity "tanh" = .ok .tanh ∧
    CNNNet.initNonlinearity "relu" = .ok .relu ∧
    (CNNNet.init 32 (.scalar 3) (.scalar 1) 1 "sigmoid" true true).isOk =
      false ∧
    ∀ (embedding_dim : ℕ) (kernel_width dilation : IntOrList)
      (num_layers : ℕ) (nonlinearity : String)
      (residual_connections batch_norm : Bool),
      (CNNNet.init embedding_dim kernel_width dilation num_layers
        nonlinearity residual_connections batch_norm).isOk =
        (nonlinearity == "tanh" || nonlinearity == "relu") := by
  refine ⟨rfl, rfl, by decide, ?_⟩
  intro D kw dil nl s rc bnorm
  by_cases h1 : s = "tanh"
  · subst h1; rfl
  · by_cases h2 : s = "relu"
    · subst h2; rfl
    · simp only [CNNNet.init, CNNNet.initNonlinearity, if_neg h1,
        if_neg h2]
      rw [show (s == "tanh") = false from beq_eq_false_iff_ne.mpr h1,
        show (s == "relu") = false from beq_eq_false_iff_ne.mpr h2]
      rfl

/-! ### C4: the pooling average's denominator -/

/-- C4 counterexample: with `D = 2`, embeddings `e1 = [2, 0]`,
`e2 = [1, 1]` and the sequence `[1, 2]` (no padding), the final channel-1
representation is `1/2`, not the claimed
`(sum of channel-1 embeddings) / (number of non-padding items + 1) = 1/3`:
the code counts nonzero embedding *entries* per channel, and item 1
contributes a zero entry in channel 1. -/
theorem pooling_count_counterexample :
    (PoolNet.user_representation poolTwo [1, 2]).2.getD 1 0 ≠
      ((poolTwo.item_embeddings 1).getD 1 0 +
        (poolTwo.item_embeddings 2).getD 1 0) / (2 + 1) := by
  norm_num [PoolNet.user_representation, PoolNet.sequence_embeddings,
    poolTwo, cumsum, padLeft, lastD,
    show List.range 1 = [0] from by decide,
    show List.range 2 = [0, 1] from by decide,
    show List.range 3 = [0, 1, 2] from by decide]

/-- C4 amended: the representation at position `t` is the cumulative sum of
the first `t` embeddings divided by one plus the per-channel count of
*nonzero embedding entries* among the first `t` positions; this coincides
with the claimed count of non-padding items whenever every non-padding item
has a nonzero entry in the channel (and padding maps to zero); the concrete
`[5, 0, 7]` example evaluates exactly as claimed. -/
theorem pooling_average_amended :
    (∀ (m : PoolNet) (items : List ℕ) (c t : ℕ), c < m.embedding_dim →
      ((t < items.length →
        ((PoolNet.user_representation m items).1.getD c []).getD t 0 =
          ((List.range t).map fun s =>
            (m.item_embeddings (items.getD s 0)).getD c 0).sum /
          (((List.range t).map fun s =>
            if (m.item_embeddings (items.getD s 0)).getD c 0 = 0 then 0
            else 1).sum + 1)) ∧
      (PoolNet.user_representation m items).2.getD c 0 =
        ((List.range items.length).map fun s =>
          (m.item_embeddings (items.getD s 0)).getD c 0).sum /
        (((List.range items.length).map fun s =>
          if (m.item_embeddings (items.getD s 0)).getD c 0 = 0 then 0
          else 1).sum + 1))) ∧
    (∀ (m : PoolNet) (items : List ℕ) (c t : ℕ), c < m.embedding_dim →
      t < items.length →
      (∀ c', (m.item_embeddings PADDING_IDX).getD c' 0 = 0) →
      (∀ s, s < items.length → items.getD s 0 ≠ PADDING_IDX →
        (m.item_embeddings (items.getD s 0)).getD c 0 ≠ 0) →
      ((PoolNet.user_representation m items).1.getD c []).getD t 0 =
        ((List.range t).map fun s =>
          (m.item_embeddings (items.getD s 0)).getD c 0).sum /
        (((List.range t).map fun s =>
          if items.getD s 0 = PADDING_IDX then 0 else 1).sum + 1)) ∧
    PoolNet.user_representation poolC4 [5, 0, 7] = ([[0, 1, 1]], [5 / 3]) :=
    by
  refine ⟨?_, ?_, by
    norm_num [PoolNet.user_representation, PoolNet.sequence_embeddings,
      poolC4, cumsum, padLeft, lastD,
      show List.range 1 = [0] from by decide,
      show List.range 2 = [0, 1] from by decide,
      show List.range 3 = [0, 1, 2] from by decide,
      show List.range 4 = [0, 1, 2, 3] from by decide]⟩
  · intro m items c t hc
    exact ⟨fun ht => pool_allReps_getD m items c t hc ht,
      pool_final_getD m items c hc⟩
  · intro m items c t hc ht hpad hnz
    rw [pool_allReps_getD m items c t hc ht]
    have : ((List.range t).map fun s =>
        if (m.item_embeddings (items.getD s 0)).getD c 0 = 0 then (0 : ℚ)
        else 1).sum =
      ((List.range t).map fun s =>
        if items.getD s 0 = PADDING_IDX then (0 : ℚ) else 1).sum := by
      apply sum_range_map_congr
      intro s hs
      by_cases hp : items.getD s 0 = PADDING_IDX
      · rw [if_pos hp, hp, hpad c, if_pos rfl]
      · rw [if_neg hp, if_neg (hnz s (by omega) hp)]
    rw [this]

/-- Witness for C4's amended theorem: the per-channel formula instantiated at
the `[5, 0, 7]` example, position 1, channel 0. -/
theorem pooling_average_amended_witness :
    ((PoolNet.user_representation poolC4 [5, 0, 7]).1.getD 0 []).getD 1 0 =
      ((List.range 1).map fun s =>
        (poolC4.item_embeddings (([5, 0, 7] : List ℕ).getD s 0)).getD
          0 0).sum /
      (((List.range 1).map fun s =>
        if (poolC4.item_embeddings (([5, 0, 7] : List ℕ).getD s 0)).getD
          0 0 = 0 then 0 else 1).sum + 1) :=
  ((pooling_average_amended.1 poolC4 [5, 0, 7] 0 1 (by decide)).1
    (by decide))

/-! ### C9: all-padding sequences and denominator safety -/

/-- C9: a sequence consisting entirely of the padding id yields the zero
representation at every exposed step and as the final representation
(provided the padding row of the embedding table is zero, as guaranteed by
`ScaledEmbedding(padding_idx=0)`), and every denominator used by the
division is a nonzero-entry count plus one, hence at least one, for any
input. -/
theorem all_padding_zero :
    (∀ (m : PoolNet) (L c t : ℕ),
      (∀ c', (m.item_embeddings PADDING_IDX).getD c' 0 = 0) →
      ((((PoolNet.user_representation m
          (List.replicate L PADDING_IDX)).1.getD c []).getD t 0 = 0) ∧
       (PoolNet.user_representation m
          (List.replicate L PADDING_IDX)).2.getD c 0 = 0)) ∧
    (∀ (m : PoolNet) (items : List ℕ) (c i : ℕ),
      1 ≤ ((((PoolNet.sequence_embeddings m items).map (padLeft 1)).map
        fun ch => cumsum (ch.map fun v => if v = 0 then 0 else 1)).getD
          c []).getD i 0 + 1) := by
  constructor
  · intro m L c t hpad
    have hzero : ∀ tt, tt ≤ L →
        ((List.range tt).map fun s =>
          (m.item_embeddings ((List.replicate L PADDING_IDX).getD
            s 0)).getD c 0).sum = 0 := by
      intro tt htt
      apply List.sum_eq_zero
      intro x hx
      rw [List.mem_map] at hx
      obtain ⟨s, _, rfl⟩ := hx
      rw [replicate_padding_getD, hpad c]
    constructor
    · by_cases hc : c < m.embedding_dim
      · by_cases ht : t < L
        · rw [pool_allReps_getD m _ c t hc (by simpa using ht)]
          rw [hzero t (by omega)]
          simp
        · have hlen : ((PoolNet.user_representation m
              (List.replicate L PADDING_IDX)).1.getD c []).length = L := by
            rw [pool_userRep_fst, List.map_map,
              getD_range_map (List.dropLast ∘ poolStates m _)
                m.embedding_dim c [], if_pos hc]
            show (List.dropLast (poolStates m _ c)).length = L
            simp [poolStates]
          rw [getD_oob _ t (by omega)]
      · have : (PoolNet.user_representation m
            (List.replicate L PADDING_IDX)).1.getD c [] = [] := by
          rw [pool_userRep_fst]
          apply getD_oob
          simp only [List.length_map, List.length_range]
          omega
        rw [this]
        rfl
    · by_cases hc : c < m.embedding_dim
      · rw [pool_final_getD m _ c hc]
        rw [List.length_replicate, hzero L (Nat.le_refl L)]
        simp
      · rw [pool_userRep_snd]
        apply getD_oob
        simp only [List.length_map, List.length_range]
        omega
  · intro m items c i
    have hge : (0 : ℚ) ≤ ((((PoolNet.sequence_embeddings m items).map
        (padLeft 1)).map fun ch =>
          cumsum (ch.map fun v => if v = 0 then 0 else 1)).getD
            c []).getD i 0 := by
      by_cases hc : c < ((PoolNet.sequence_embeddings m items).map
          (padLeft 1)).length
      · rw [getD_map_lt _ _ c hc []]
        by_cases hi : i < (((PoolNet.sequence_embeddings m items).map
            (padLeft 1)).getD c []).length
        · have hi2 : i < (((((PoolNet.sequence_embeddings m items).map
              (padLeft 1)).getD c []).map fun v =>
                if v = 0 then 0 else (1 : ℚ))).length := by
            simpa using hi
          rw [cumsum_getD _ i hi2]
          apply List.sum_nonneg
          intro x hx
          rw [List.mem_map] at hx
          obtain ⟨s, _, rfl⟩ := hx
          by_cases hs : s < (((((PoolNet.sequence_embeddings m items).map
              (padLeft 1)).getD c []).map fun v =>
                if v = 0 then 0 else (1 : ℚ))).length
          · rw [getD_map_lt _ _ s (by simpa using hs) 0]
            split
            · exact le_refl 0
            · exact zero_le_one
          · rw [getD_oob _ s (Nat.le_of_not_lt hs)]
        · apply le_of_eq
          rw [getD_oob]
          rw [cumsum_length, List.length_map]
          omega
      · apply le_of_eq
        have hc2 : (((PoolNet.sequence_embeddings m items).map
            (padLeft 1)).map fun ch =>
              cumsum (ch.map fun v => if v = 0 then 0 else 1)).length ≤
              c := by
          simp only [List.length_map] at hc ⊢
          omega
        rw [getD_oob _ c hc2]
        rfl
    linarith

/-- Witness for C9: the all-padding and denominator facts instantiated at a
concrete module and the sequence `[0, 0]`. -/
theorem all_padding_zero_witness :
    (((PoolNet.user_representation poolC4
        (List.replicate 2 PADDING_IDX)).1.getD 0 []).getD 1 0 = 0 ∧
      (PoolNet.user_representation poolC4
        (List.replicate 2 PADDING_IDX)).2.getD 0 0 = 0) ∧
    1 ≤ ((((PoolNet.sequence_embeddings poolC4 [5, 0, 7]).map
      (padLeft 1)).map fun ch =>
        cumsum (ch.map fun v => if v = 0 then 0 else 1)).getD 0 []).getD
          2 0 + 1 :=
  ⟨(all_padding_zero.1 poolC4 2 0 1
      (by intro c'; rcases c' with _ | n <;> rfl)),
    all_padding_zero.2 poolC4 [5, 0, 7] 0 2⟩

/-! ### C10: tied embedding tables between scoring and representation -/

/-- Bias half of the tied-weights property: any two scoring positions
holding the same item id read equal bias values, namely the per-instance
table's entry for that id. -/
theorem biasLookup_tied (bias : ℕ → ℚ) (targets : List (List ℕ))
    (n t n' t' : ℕ) (hn : n < targets.length)
    (ht : t < (targets.getD n []).length) (hn' : n' < targets.length)
    (ht' : t' < (targets.getD n' []).length)
    (hid : (targets.getD n []).getD t 0 = (targets.getD n' []).getD t' 0) :
    (((biasLookup bias targets).getD n []).getD t []).getD 0 0 =
        (((biasLookup bias targets).getD n' []).getD t' []).getD 0 0 ∧
      (((biasLookup bias targets).getD n []).getD t []).getD 0 0 =
        bias ((targets.getD n []).getD t 0) := by
  have h1 : (((biasLookup bias targets).getD n []).getD t []).getD 0 0 =
      bias ((targets.getD n []).getD t 0) := by
    rw [biasLookup,
      getD_map_lt (fun tseq => tseq.map fun j => [bias j]) targets n hn [] [],
      getD_map_lt (fun j => [bias j]) (targets.getD n []) t ht 0 []]
    rfl
  have h2 : (((biasLookup bias targets).getD n' []).getD t' []).getD 0 0 =
      bias ((targets.getD n' []).getD t' 0) := by
    rw [biasLookup,
      getD_map_lt (fun tseq => tseq.map fun j => [bias j]) targets
        n' hn' [] [],
      getD_map_lt (fun j => [bias j]) (targets.getD n' []) t' ht' 0 []]
    rfl
  exact ⟨by rw [h1, h2, hid], h1⟩

/-- C10: in every encoder variant the scorer reads target embeddings and
target biases from the same per-instance tables that `user_representation`
reads history-item embeddings from.  Conjuncts 1-3 (pooling, recurrent,
convolutional): whenever the same item id appears at an input position and
a target position, the channel-`c` value of the scorer's target embedding
equals the channel-`c` value of the encoder's sequence embedding (for the
recurrent encoder the input stream is shifted by the prepended zero step).
Conjuncts 4-6: the scorer's bias tensor reads the per-instance `item_biases`
table, so any two target occurrences of the same id get the identical bias,
the table's entry for that id. -/
theorem tied_weights :
    (∀ (m : PoolNet) (items : List ℕ) (targets : List (List ℕ))
      (n t u c : ℕ), n < targets.length →
      t < (targets.getD n []).length → u < items.length →
      items.getD u 0 = (targets.getD n []).getD t 0 →
      (((PoolNet.target_embedding m targets).getD n []).getD c []).getD t 0 =
        ((PoolNet.sequence_embeddings m items).getD c []).getD u 0) ∧
    (∀ (m : LSTMNet) (items : List ℕ) (targets : List (List ℕ))
      (n t u c : ℕ), n < targets.length →
      t < (targets.getD n []).length → u < items.length →
      items.getD u 0 = (targets.getD n []).getD t 0 →
      (((LSTMNet.target_embedding m targets).getD n []).getD c []).getD t 0 =
        ((LSTMNet.sequence_embeddings m items).getD (u + 1) []).getD c 0) ∧
    (∀ (m : CNNNet) (batch : List (List ℕ)) (targets : List (List ℕ))
      (nb n t u c : ℕ), nb < batch.length → n < targets.length →
      t < (targets.getD n []).length → u < (batch.getD nb []).length →
      (batch.getD nb []).getD u 0 = (targets.getD n []).getD t 0 →
      (((CNNNet.target_embedding m targets).getD n []).getD c []).getD t 0 =
        (((CNNNet.sequence_embeddings m batch).getD nb []).getD c []).getD
          u 0) ∧
    (∀ (m : PoolNet) (targets : List (List ℕ)) (n t n' t' : ℕ),
      n < targets.length → t < (targets.getD n []).length →
      n' < targets.length → t' < (targets.getD n' []).length →
      (targets.getD n []).getD t 0 = (targets.getD n' []).getD t' 0 →
      (((biasLookup m.item_biases targets).getD n []).getD t []).getD 0 0 =
          (((biasLookup m.item_biases targets).getD n' []).getD
            t' []).getD 0 0 ∧
        (((biasLookup m.item_biases targets).getD n []).getD t []).getD
            0 0 =
          m.item_biases ((targets.getD n []).getD t 0)) ∧
    (∀ (m : LSTMNet) (targets : List (List ℕ)) (n t n' t' : ℕ),
      n < targets.length → t < (targets.getD n []).length →
      n' < targets.length → t' < (targets.getD n' []).length →
      (targets.getD n []).getD t 0 = (targets.getD n' []).getD t' 0 →
      (((biasLookup m.item_biases targets).getD n []).getD t []).getD 0 0 =
          (((biasLookup m.item_biases targets).getD n' []).getD
            t' []).getD 0 0 ∧
        (((biasLookup m.item_biases targets).getD n []).getD t []).getD
            0 0 =
          m.item_biases ((targets.getD n []).getD t 0)) ∧
    (∀ (m : CNNNet) (targets : List (List ℕ)) (n t n' t' : ℕ),
      n < targets.length → t < (targets.getD n []).length →
      n' < targets.length → t' < (targets.getD n' []).length →
      (targets.getD n []).getD t 0 = (targets.getD n' []).getD t' 0 →
      (((biasLookup m.item_biases targets).getD n []).getD t []).getD 0 0 =
          (((biasLookup m.item_biases targets).getD n' []).getD
            t' []).getD 0 0 ∧
        (((biasLookup m.item_biases targets).getD n []).getD t []).getD
            0 0 =
          m.item_biases ((targets.getD n []).getD t 0)) := by
  refine ⟨?_, ?_, ?_, ?_, ?_, ?_⟩
  · intro m items targets n t u c hn ht hu hid
    rw [PoolNet.target_embedding, getD_map_lt _ targets n hn []]
    rw [PoolNet.sequence_embeddings]
    by_cases hc : c < m.embedding_dim
    · rw [getD_range_map _ m.embedding_dim c [], if_pos hc,
        getD_range_map _ m.embedding_dim c [], if_pos hc]
      rw [getD_map_lt _ _ t ht 0, getD_map_lt _ _ u hu 0, hid]
    · rw [getD_range_map _ m.embedding_dim c [], if_neg hc,
        getD_range_map _ m.embedding_dim c [], if_neg hc]
      rfl
  · intro m items targets n t u c hn ht hu hid
    rw [LSTMNet.target_embedding, getD_map_lt _ targets n hn []]
    rw [LSTMNet.sequence_embeddings, List.getD_cons_succ]
    rw [getD_map_lt _ items u hu 0]
    by_cases hc : c < m.embedding_dim
    · rw [getD_range_map _ m.embedding_dim c [], if_pos hc,
        getD_map_lt _ _ t ht 0,
        getD_range_map _ m.embedding_dim c 0, if_pos hc, hid]
    · rw [getD_range_map _ m.embedding_dim c [], if_neg hc,
        getD_range_map _ m.embedding_dim c 0, if_neg hc]
      rfl
  · intro m batch targets nb n t u c hnb hn ht hu hid
    rw [CNNNet.target_embedding, getD_map_lt _ targets n hn []]
    rw [CNNNet.sequence_embeddings, getD_map_lt _ batch nb hnb []]
    by_cases hc : c < m.embedding_dim
    · rw [getD_range_map _ m.embedding_dim c [], if_pos hc,
        getD_range_map _ m.embedding_dim c [], if_pos hc]
      rw [getD_map_lt _ _ t ht 0, getD_map_lt _ _ u hu 0, hid]
    · rw [getD_range_map _ m.embedding_dim c [], if_neg hc,
        getD_range_map _ m.embedding_dim c [], if_neg hc]
      rfl
  · intro m targets n t n' t' hn ht hn' ht' hid
    exact biasLookup_tied m.item_biases targets n t n' t' hn ht hn' ht' hid
  · intro m targets n t n' t' hn ht hn' ht' hid
    exact biasLookup_tied m.item_biases targets n t n' t' hn ht hn' ht' hid
  · intro m targets n t n' t' hn ht hn' ht' hid
    exact biasLookup_tied m.item_biases targets n t n' t' hn ht hn' ht' hid

/-- Witness for C10: item id `5` appearing both in the input sequence and as
a scoring target of the same pooling instance reads the same embedding
value; likewise item `2` for the recurrent encoder; and two target
occurrences of item `1` read the same bias from the same instance. -/
theorem tied_weights_witness :
    ((((PoolNet.target_embedding poolC4 [[7, 5]]).getD 0 []).getD 0 []).getD
        1 0 =
      ((PoolNet.sequence_embeddings poolC4 [5, 0, 7]).getD 0 []).getD 0 0) ∧
    ((((LSTMNet.target_embedding lstmTiny [[3, 2]]).getD 0 []).getD
        0 []).getD 1 0 =
      ((LSTMNet.sequence_embeddings lstmTiny [1, 2, 3]).getD 2 []).getD
        0 0) ∧
    (((biasLookup poolScore.item_biases [[1, 7], [1, 1]]).getD 0 []).getD
        0 []).getD 0 0 =
      (((biasLookup poolScore.item_biases [[1, 7], [1, 1]]).getD 1 []).getD
        1 []).getD 0 0 := by
  refine ⟨?_, ?_, ?_⟩
  · exact tied_weights.1 poolC4 [5, 0, 7] [[7, 5]] 0 1 0 0 (by decide)
      (by decide) (by decide) (by decide)
  · exact tied_weights.2.1 lstmTiny [1, 2, 3] [[3, 2]] 0 1 1 0 (by decide)
      (by decide) (by decide) (by decide)
  · exact (tied_weights.2.2.2.1 poolScore [[1, 7], [1, 1]] 0 0 1 1
      (by decide) (by decide) (by decide) (by decide) (by decide)).1

/-! ### CNN pipeline decomposition used by the proofs -/

/-- Everything `CNNNet.user_representation` does before the layer loop:
embed, pad by the first receptive field width, first convolution,
nonlinearity, batch norm on `bn[0]`, residual.  Returns the tensor and the
batch-norm layer list after the first update. -/
def cnnFirstStage (m : CNNNet) (item_sequences : List (List ℕ)) :
    List (List (List ℚ)) × List BNLayer :=
  let sequence_embeddings := CNNNet.sequence_embeddings m item_sequences
  let k0 := m.kernel_width.getD 0 0
  let d0 := m.dilation.getD 0 0
  let x0 := sequence_embeddings.map fun chans =>
    chans.map (padLeft (receptive_field_width k0 d0))
  let x1 := x0.map
    (convLayerApply m.embedding_dim (m.cnn_layers.getD 0 defaultConvLayer)
      k0 d0)
  let x2 := x1.map fun chans => chans.map (List.map m.nonlinearity)
  let r0 :=
    if m.batch_norm then
      let b := batchNormTrain (m.bn.getD 0 defaultBNLayer)
        m.embedding_dim x2
      (b.1, m.bn.set 0 b.2)
    else (x2, m.bn)
  let x4 :=
    if m.residual_connections then
      addTensors r0.1 (sequence_embeddings.map fun chans =>
        chans.map (padLeft 1))
    else r0.1
  (x4, r0.2)

/-- The `(cnn_layer, kernel_width, dilation)` triples iterated by the layer
loop (`zip(self.cnn_layers[1:], self.kernel_width[1:], self.dilation[1:])`).
-/
def cnnRestLayers (m : CNNNet) : List (ConvLayer × ℕ × ℕ) :=
  (m.cnn_layers.drop 1).zip
    ((m.kernel_width.drop 1).zip (m.dilation.drop 1))

theorem cnn_userRep_unfold (m : CNNNet) (item_sequences : List (List ℕ)) :
    CNNNet.user_representation m item_sequences =
      ((((cnnLayersLoop m (cnnRestLayers m) 0
          (cnnFirstStage m item_sequences).1
          (cnnFirstStage m item_sequences).2).1.map fun chans =>
            chans.map List.dropLast),
        (cnnLayersLoop m (cnnRestLayers m) 0
          (cnnFirstStage m item_sequences).1
          (cnnFirstStage m item_sequences).2).1.map fun chans =>
            chans.map lastD),
       (cnnLayersLoop m (cnnRestLayers m) 0
          (cnnFirstStage m item_sequences).1
          (cnnFirstStage m item_sequences).2).2) := rfl

/-! ### C5: batch-norm layer indexing in the layer loop -/

/-- C5 (code bug): with two convolutional layers and batch normalization
enabled, the representations produced by `user_representation` are
completely independent of the second normalization layer `bn[1]`: the layer
loop applies `self.bn[i]` with the `enumerate` index `i` starting at `0`
over `cnn_layers[1:]`, so the second convolutional layer is normalized by
`bn[0]` again and `bn[1]` is never applied. -/
theorem bn_index_bug (D kw0 kw1 d0 d1 : ℕ) (σ : ℚ → ℚ) (rc : Bool)
    (emb : ℕ → List ℚ) (bias : ℕ → ℚ) (l0 l1 : ConvLayer)
    (b0 b1 b1' : BNLayer) (batch : List (List ℕ)) :
    (CNNNet.user_representation
      { embedding_dim := D, kernel_width := [kw0, kw1],
        dilation := [d0, d1], nonlinearity := σ,
        residual_connections := rc, batch_norm := true,
        item_embeddings := emb, item_biases := bias,
        cnn_layers := [l0, l1], bn := [b0, b1] } batch).1 =
    (CNNNet.user_representation
      { embedding_dim := D, kernel_width := [kw0, kw1],
        dilation := [d0, d1], nonlinearity := σ,
        residual_connections := rc, batch_norm := true,
        item_embeddings := emb, item_biases := bias,
        cnn_layers := [l0, l1], bn := [b0, b1'] } batch).1 := rfl

/-! ### C7: purity of the forward computation -/

/-- Batch-norm layers with the same learned parameters (they may differ in
their persistent running statistics). -/
def SameBNParams (a b : BNLayer) : Prop :=
  a.weight = b.weight ∧ a.bias = b.bias ∧ a.eps = b.eps ∧
    a.momentum = b.momentum

theorem sameBN_refl (a : BNLayer) : SameBNParams a a :=
  ⟨rfl, rfl, rfl, rfl⟩

theorem batchNormTrain_params (a b : BNLayer) (D : ℕ)
    (xs : List (List (List ℚ))) (h : SameBNParams a b) :
    (batchNormTrain a D xs).1 = (batchNormTrain b D xs).1 ∧
      SameBNParams (batchNormTrain a D xs).2 (batchNormTrain b D xs).2 := by
  obtain ⟨hw, hb, he, hm⟩ := h
  constructor
  · simp only [batchNormTrain, hw, hb, he]
  · exact ⟨hw, hb, he, hm⟩

theorem sameBN_getD (l l' : List BNLayer)
    (h : List.Forall₂ SameBNParams l l') (i : ℕ) (d d' : BNLayer)
    (hd : SameBNParams d d') : SameBNParams (l.getD i d) (l'.getD i d') := by
  induction h generalizing i with
  | nil => simpa [List.getD] using hd
  | cons hab htail ih =>
      cases i with
      | zero => simpa using hab
      | succ n => simpa using ih n

theorem sameBN_set (l l' : List BNLayer)
    (h : List.Forall₂ SameBNParams l l') (i : ℕ) (a b : BNLayer)
    (hab : SameBNParams a b) :
    List.Forall₂ SameBNParams (l.set i a) (l'.set i b) := by
  induction h generalizing i with
  | nil => simpa using List.Forall₂.nil
  | cons hxy htail ih =>
      cases i with
      | zero => exact List.Forall₂.cons hab htail
      | succ n => exact List.Forall₂.cons hxy (ih n)

/-- The layer loop reads only `embedding_dim`, `nonlinearity`,
`residual_connections` and `batch_norm` from the module. -/
theorem cnnLayersLoop_congr (m m' : CNNNet)
    (h1 : m.embedding_dim = m'.embedding_dim)
    (h2 : m.nonlinearity = m'.nonlinearity)
    (h3 : m.residual_connections = m'.residual_connections)
    (h4 : m.batch_norm = m'.batch_norm)
    (layers : List (ConvLayer × ℕ × ℕ)) (i : ℕ)
    (x : List (List (List ℚ))) (bns : List BNLayer) :
    cnnLayersLoop m layers i x bns = cnnLayersLoop m' layers i x bns := by
  induction layers generalizing i x bns with
  | nil => rfl
  | cons l rest ih =>
      obtain ⟨layer, k, d⟩ := l
      simp only [cnnLayersLoop, h1, h2, h3, h4]
      rw [ih]

/-- Outputs of the layer loop do not depend on the batch-norm running
statistics; the updated layers keep their learned parameters. -/
theorem cnnLayersLoop_same_params (m : CNNNet)
    (layers : List (ConvLayer × ℕ × ℕ)) (i : ℕ)
    (x : List (List (List ℚ))) (bns bns' : List BNLayer)
    (h : List.Forall₂ SameBNParams bns bns') :
    (cnnLayersLoop m layers i x bns).1 =
      (cnnLayersLoop m layers i x bns').1 ∧
    List.Forall₂ SameBNParams (cnnLayersLoop m layers i x bns).2
      (cnnLayersLoop m layers i x bns').2 := by
  induction layers generalizing i x bns bns' with
  | nil => exact ⟨rfl, h⟩
  | cons l rest ih =>
      obtain ⟨layer, k, d⟩ := l
      simp only [cnnLayersLoop]
      by_cases hB : m.batch_norm
      · simp only [if_pos hB]
        have hbn := batchNormTrain_params
          (bns.getD i defaultBNLayer) (bns'.getD i defaultBNLayer)
          m.embedding_dim
          ((x.map fun chans =>
            chans.map (padLeft (receptive_field_width k d - 1))).map
            (convLayerApply m.embedding_dim layer k d) |>.map fun chans =>
              chans.map (List.map m.nonlinearity))
          (sameBN_getD bns bns' h i _ _ (sameBN_refl _))
        rw [hbn.1]
        exact ih (i + 1) _ _ _
          (sameBN_set bns bns' h i _ _ hbn.2)
      · simp only [if_neg hB]
        exact ih (i + 1) _ _ _ h

/-- C7 amended: the representations returned by `user_representation` are a
deterministic function of the inputs and the learned parameters only — they
do not depend on the batch-norm layers' stored running statistics (training
mode normalizes by batch statistics).  Together with
`forward_mutates_bn_state_counterexample` this corrects the claim: outputs
are pure, but the running statistics themselves are updated by the call. -/
theorem forward_state_amended (D : ℕ) (kw dil : List ℕ) (σ : ℚ → ℚ)
    (rc bnorm : Bool) (emb : ℕ → List ℚ) (bias : ℕ → ℚ)
    (layers : List ConvLayer) (bns bns' : List BNLayer)
    (h : List.Forall₂ SameBNParams bns bns') (batch : List (List ℕ)) :
    (CNNNet.user_representation
      { embedding_dim := D, kernel_width := kw, dilation := dil,
        nonlinearity := σ, residual_connections := rc, batch_norm := bnorm,
        item_embeddings := emb, item_biases := bias,
        cnn_layers := layers, bn := bns } batch).1 =
    (CNNNet.user_representation
      { embedding_dim := D, kernel_width := kw, dilation := dil,
        nonlinearity := σ, residual_connections := rc, batch_norm := bnorm,
        item_embeddings := emb, item_biases := bias,
        cnn_layers := layers, bn := bns' } batch).1 := by
  rw [cnn_userRep_unfold, cnn_userRep_unfold]
  have hfst :
      (cnnFirstStage
        { embedding_dim := D, kernel_width := kw, dilation := dil,
          nonlinearity := σ, residual_connections := rc,
          batch_norm := bnorm, item_embeddings := emb, item_biases := bias,
          cnn_layers := layers, bn := bns } batch).1 =
      (cnnFirstStage
        { embedding_dim := D, kernel_width := kw, dilation := dil,
          nonlinearity := σ, residual_connections := rc,
          batch_norm := bnorm, item_embeddings := emb, item_biases := bias,
          cnn_layers := layers, bn := bns' } batch).1 ∧
      List.Forall₂ SameBNParams
        (cnnFirstStage
          { embedding_dim := D, kernel_width := kw, dilation := dil,
            nonlinearity := σ, residual_connections := rc,
            batch_norm := bnorm, item_embeddings := emb,
            item_biases := bias, cnn_layers := layers, bn := bns }
          batch).2
        (cnnFirstStage
          { embedding_dim := D, kernel_width := kw, dilation := dil,
            nonlinearity := σ, residual_connections := rc,
            batch_norm := bnorm, item_embeddings := emb,
            item_biases := bias, cnn_layers := layers, bn := bns' }
          batch).2 := by
    cases bnorm with
    | false => exact ⟨rfl, h⟩
    | true =>
        simp only [cnnFirstStage]
        refine ⟨?_, sameBN_set bns bns' h 0 _ _
          (batchNormTrain_params _ _ _ _
            (sameBN_getD bns bns' h 0 _ _ (sameBN_refl _))).2⟩
        cases rc with
        | false =>
            exact (batchNormTrain_params _ _ _ _
              (sameBN_getD bns bns' h 0 _ _ (sameBN_refl _))).1
        | true =>
            exact congrArg (fun z => addTensors z _)
              ((batchNormTrain_params _ _ _ _
                (sameBN_getD bns bns' h 0 _ _ (sameBN_refl _))).1)
  have hcongr := cnnLayersLoop_congr
    { embedding_dim := D, kernel_width := kw, dilation := dil,
      nonlinearity := σ, residual_connections := rc, batch_norm := bnorm,
      item_embeddings := emb, item_biases := bias,
      cnn_layers := layers, bn := bns' }
    { embedding_dim := D, kernel_width := kw, dilation := dil,
      nonlinearity := σ, residual_connections := rc, batch_norm := bnorm,
      item_embeddings := emb, item_biases := bias,
      cnn_layers := layers, bn := bns }
    rfl rfl rfl rfl
  have hloop := cnnLayersLoop_same_params
    { embedding_dim := D, kernel_width := kw, dilation := dil,
      nonlinearity := σ, residual_connections := rc, batch_norm := bnorm,
      item_embeddings := emb, item_biases := bias,
      cnn_layers := layers, bn := bns }
    (cnnRestLayers
      { embedding_dim := D, kernel_width := kw, dilation := dil,
        nonlinearity := σ, residual_connections := rc, batch_norm := bnorm,
        item_embeddings := emb, item_biases := bias,
        cnn_layers := layers, bn := bns })
    0
    (cnnFirstStage
      { embedding_dim := D, kernel_width := kw, dilation := dil,
        nonlinearity := σ, residual_connections := rc, batch_norm := bnorm,
        item_embeddings := emb, item_biases := bias,
        cnn_layers := layers, bn := bns } batch).1
    (cnnFirstStage
      { embedding_dim := D, kernel_width := kw, dilation := dil,
        nonlinearity := σ, residual_connections := rc, batch_norm := bnorm,
        item_embeddings := emb, item_biases := bias,
        cnn_layers := layers, bn := bns } batch).2
    (cnnFirstStage
      { embedding_dim := D, kernel_width := kw, dilation := dil,
        nonlinearity := σ, residual_connections := rc, batch_norm := bnorm,
        item_embeddings := emb, item_biases := bias,
        cnn_layers := layers, bn := bns' } batch).2
    hfst.2
  rw [show cnnRestLayers
      { embedding_dim := D, kernel_width := kw, dilation := dil,
        nonlinearity := σ, residual_connections := rc, batch_norm := bnorm,
        item_embeddings := emb, item_biases := bias,
        cnn_layers := layers, bn := bns' } =
      cnnRestLayers
      { embedding_dim := D, kernel_width := kw, dilation := dil,
        nonlinearity := σ, residual_connections := rc, batch_norm := bnorm,
        item_embeddings := emb, item_biases := bias,
        cnn_layers := layers, bn := bns } from rfl]
  rw [hcongr, ← hfst.1]
  rw [hloop.1]

/-- A convolution layer whose only nonzero tap is the last one (weight 1),
with zero bias: the causal convolution then just delays the input by one
position. -/
def convTap2 : ConvLayer :=
  { weight := fun _ _ j => if j = 2 then 1 else 0, bias := fun _ => 0 }

/-- Single-layer CNN used for the state-mutation counterexample: conv bias 1
so the batch statistics are nonzero, batch norm enabled, fresh `BatchNorm2d`
parameters. -/
def cnnStateM : CNNNet :=
  { embedding_dim := 1, kernel_width := [3], dilation := [1],
    nonlinearity := relu, residual_connections := true, batch_norm := true,
    item_embeddings := fun i => if i = 1 then [1] else [0],
    item_biases := fun _ => 0,
    cnn_layers := [{ weight := fun _ _ j => if j = 2 then 1 else 0,
                     bias := fun _ => 1 }],
    bn := [defaultBNLayer] }

/-- C7 counterexample: one training-mode forward pass of
`user_representation` changes the persistent `running_mean` of the module's
batch-norm layer (from `0` to `momentum * batch_mean = 3/20` here), so the
module state is not left identical, contradicting the claim. -/
theorem forward_mutates_bn_state_counterexample :
    ((CNNNet.user_representation cnnStateM [[1]]).2.getD 0
        defaultBNLayer).running_mean 0 ≠
      (cnnStateM.bn.getD 0 defaultBNLayer).running_mean 0 := by
  norm_num [CNNNet.user_representation, CNNNet.sequence_embeddings,
    cnnStateM, cnnLayersLoop, batchNormTrain, bnChannelValues,
    convLayerApply, addTensors, padLeft, relu, receptive_field_width,
    defaultBNLayer, max_def,
    show List.replicate 3 (0 : ℚ) = [0, 0, 0] from rfl,
    show List.range 1 = [0] from by decide,
    show List.range 2 = [0, 1] from by decide,
    show List.range 3 = [0, 1, 2] from by decide,
    show List.range 4 = [0, 1, 2, 3] from by decide]

/-- A fresh batch-norm layer whose persistent running mean has been shifted:
same learned parameters as `defaultBNLayer`, different stored statistics. -/
def bnShifted : BNLayer :=
  { defaultBNLayer with running_mean := fun _ => 5 }

/-- Witness for C7's amended theorem: the representations computed with a
fresh running mean and with a shifted running mean coincide. -/
theorem forward_state_amended_witness :
    (CNNNet.user_representation
      { embedding_dim := 1, kernel_width := [3], dilation := [1],
        nonlinearity := relu, residual_connections := true,
        batch_norm := true,
        item_embeddings := fun i => if i = 1 then [1] else [0],
        item_biases := fun _ => 0, cnn_layers := [convTap2],
        bn := [defaultBNLayer] } [[1]]).1 =
    (CNNNet.user_representation
      { embedding_dim := 1, kernel_width := [3], dilation := [1],
        nonlinearity := relu, residual_connections := true,
        batch_norm := true,
        item_embeddings := fun i => if i = 1 then [1] else [0],
        item_biases := fun _ => 0, cnn_layers := [convTap2],
        bn := [bnShifted] } [[1]]).1 :=
  forward_state_amended 1 [3] [1] relu true true
    (fun i => if i = 1 then [1] else [0]) (fun _ => 0) [convTap2]
    [defaultBNLayer] [bnShifted]
    (List.Forall₂.cons ⟨rfl, rfl, rfl, rfl⟩ List.Forall₂.nil) [[1]]

/-! ### C1: causality -/

theorem sqrtQ_121 : sqrtQ (121 / 4000000) = 11 / 2000 := by
  have h1 : ((121 : ℚ) / 4000000).num = 121 := by norm_num
  have h2 : ((121 : ℚ) / 4000000).den = 4000000 := by norm_num
  rw [sqrtQ, h1, h2]
  rw [show ((121 : ℤ).toNat) = 121 from rfl]
  rw [show natSqrt 121 = 11 from by decide,
    show natSqrt 4000000 = 2000 from by decide]
  norm_num

theorem sqrtQ_169 : sqrtQ (169 / 4000000) = 13 / 2000 := by
  have h1 : ((169 : ℚ) / 4000000).num = 169 := by norm_num
  have h2 : ((169 : ℚ) / 4000000).den = 4000000 := by norm_num
  rw [sqrtQ, h1, h2]
  rw [show ((169 : ℤ).toNat) = 169 from rfl]
  rw [show natSqrt 169 = 13 from by decide,
    show natSqrt 4000000 = 2000 from by decide]
  norm_num

/-- Single-layer CNN (kernel width 3, dilation 1, relu, residual, batch norm
enabled — all defaults except the nonlinearity) whose embedding values are
chosen so that the batch-norm variances of both the original and the edited
batch are perfect rational squares, making the training-mode normalization
exactly computable. -/
def cnnLeak : CNNNet :=
  { embedding_dim := 1, kernel_width := [3], dilation := [1],
    nonlinearity := relu, residual_connections := true, batch_norm := true,
    item_embeddings := fun i =>
      if i = 2 then [9 / 1000] else if i = 3 then [9 / 1000]
      else if i = 4 then [13 / 1000] else [0],
    item_biases := fun _ => 0,
    cnn_layers := [convTap2], bn := [defaultBNLayer] }

/-- C1 counterexample: with batch normalization enabled (the default) in
training mode, changing the item at position `2` of the sequence changes
`allReps[:, :, 0]` — the statistics of `BatchNorm2d` are computed across all
sequence positions, so a later edit leaks into strictly earlier
representations (here `-9/11` becomes `-11/13`). -/
theorem causality_counterexample :
    (∀ s, s ≠ 2 → ([1, 2, 3] : List ℕ).getD s 0 =
      ([1, 2, 4] : List ℕ).getD s 0) ∧
    (0 : ℕ) < 2 ∧ (2 : ℕ) < ([1, 2, 3] : List ℕ).length ∧
    (((CNNNet.user_representation cnnLeak [[1, 2, 3]]).1.1.getD
        0 []).getD 0 []).getD 0 0 ≠
      (((CNNNet.user_representation cnnLeak [[1, 2, 4]]).1.1.getD
        0 []).getD 0 []).getD 0 0 := by
  refine ⟨?_, by decide, by decide, ?_⟩
  · intro s hs
    match s with
    | 0 => rfl
    | 1 => rfl
    | 2 => exact absurd rfl hs
    | n + 3 => rfl
  · have hA : (((CNNNet.user_representation cnnLeak
        [[1, 2, 3]]).1.1.getD 0 []).getD 0 []).getD 0 0 = -9 / 11 := by
      norm_num [CNNNet.user_representation, CNNNet.sequence_embeddings,
        cnnLeak, convTap2, cnnLayersLoop, batchNormTrain, bnChannelValues,
        convLayerApply, addTensors, padLeft, relu, receptive_field_width,
        defaultBNLayer, max_def, sqrtQ_121, sqrtQ_169,
        show List.replicate 3 (0 : ℚ) = [0, 0, 0] from rfl,
        show List.range 1 = [0] from by decide,
        show List.range 2 = [0, 1] from by decide,
        show List.range 3 = [0, 1, 2] from by decide,
        show List.range 4 = [0, 1, 2, 3] from by decide,
        show List.range 6 = [0, 1, 2, 3, 4, 5] from by decide]
    have hB : (((CNNNet.user_representation cnnLeak
        [[1, 2, 4]]).1.1.getD 0 []).getD 0 []).getD 0 0 = -11 / 13 := by
      norm_num [CNNNet.user_representation, CNNNet.sequence_embeddings,
        cnnLeak, convTap2, cnnLayersLoop, batchNormTrain, bnChannelValues,
        convLayerApply, addTensors, padLeft, relu, receptive_field_width,
        defaultBNLayer, max_def, sqrtQ_121, sqrtQ_169,
        show List.replicate 3 (0 : ℚ) = [0, 0, 0] from rfl,
        show List.range 1 = [0] from by decide,
        show List.range 2 = [0, 1] from by decide,
        show List.range 3 = [0, 1, 2] from by decide,
        show List.range 4 = [0, 1, 2, 3] from by decide,
        show List.range 6 = [0, 1, 2, 3, 4, 5] from by decide]
    rw [hA, hB]
    norm_num

/-! ### Per-batch-element view of the CNN pipeline (batch norm disabled)

With `batch_norm = False` every stage of `CNNNet.user_representation` acts
pointwise in the batch dimension, so the pipeline factors through a
per-sequence function.  These definitions and lemmas express that
factorisation; they are the proof-layer counterpart of the batched source
code, not a second model. -/

/-- Elementwise sum of two channel-major per-sequence tensors. -/
def addChans (x y : List (List ℚ)) : List (List ℚ) :=
  List.zipWith (fun p q => List.zipWith (· + ·) p q) x y

theorem addTensors_eq (x y : List (List (List ℚ))) :
    addTensors x y = List.zipWith addChans x y := rfl

/-- Channel-major embedded sequence of one batch element. -/
def cnnChans (m : CNNNet) (items : List ℕ) : List (List ℚ) :=
  (List.range m.embedding_dim).map fun c =>
    items.map fun i => (m.item_embeddings i).getD c 0

/-- One batch element's view of the layer loop when batch norm is off. -/
def cnnElementLoop (m : CNNNet) :
    List (ConvLayer × ℕ × ℕ) → List (List ℚ) → List (List ℚ)
  | [], x => x
  | (cnn_layer, kernel_width, dilation) :: rest, x =>
      let residual := x
      let x1 := x.map
        (padLeft (receptive_field_width kernel_width dilation - 1))
      let x2 := convLayerApply m.embedding_dim cnn_layer kernel_width
        dilation x1
      let x3 := x2.map (List.map m.nonlinearity)
      let x5 := if m.residual_connections then addChans x3 residual else x3
      cnnElementLoop m rest x5

/-- One batch element's view of the first layer when batch norm is off. -/
def cnnElementFirst (m : CNNNet) (items : List ℕ) : List (List ℚ) :=
  let x1 := convLayerApply m.embedding_dim
    (m.cnn_layers.getD 0 defaultConvLayer) (m.kernel_width.getD 0 0)
    (m.dilation.getD 0 0)
    ((cnnChans m items).map (padLeft (receptive_field_width
      (m.kernel_width.getD 0 0) (m.dilation.getD 0 0))))
  let x2 := x1.map (List.map m.nonlinearity)
  if m.residual_connections then
    addChans x2 ((cnnChans m items).map (padLeft 1))
  else x2

theorem zipWith_map_left_self {α β γ : Type} (f : β → α → γ) (g : α → β)
    (l : List α) :
    List.zipWith f (l.map g) l = l.map fun a => f (g a) a := by
  induction l with
  | nil => rfl
  | cons x xs ih => simp [ih]

theorem cnnLayersLoop_bn_off (m : CNNNet) (hbn : m.batch_norm = false)
    (layers : List (ConvLayer × ℕ × ℕ)) (i : ℕ)
    (xs : List (List (List ℚ))) (bns : List BNLayer) :
    (cnnLayersLoop m layers i xs bns).1 =
      xs.map (cnnElementLoop m layers) := by
  induction layers generalizing i xs with
  | nil =>
      calc (cnnLayersLoop m [] i xs bns).1 = xs := rfl
        _ = xs.map id := (List.map_id xs).symm
        _ = xs.map (cnnElementLoop m []) := by
            apply List.map_congr_left
            intro a _
            rfl
  | cons l rest ih =>
      obtain ⟨layer, k, d⟩ := l
      simp only [cnnLayersLoop, hbn, Bool.false_eq_true, if_false, ih,
        List.map_map]
      by_cases hrc : m.residual_connections
      · simp only [if_pos hrc, addTensors_eq, List.map_map]
        rw [zipWith_map_left_self]
        rw [List.map_map]
        apply List.map_congr_left
        intro a _
        simp only [cnnElementLoop, if_pos hrc, Function.comp]
      · simp only [if_neg hrc, List.map_map]
        apply List.map_congr_left
        intro a _
        simp only [cnnElementLoop, if_neg hrc, Function.comp]

theorem cnnFirstStage_bn_off (m : CNNNet) (hbn : m.batch_norm = false)
    (batch : List (List ℕ)) :
    (cnnFirstStage m batch).1 = batch.map (cnnElementFirst m) ∧
    (cnnFirstStage m batch).2 = m.bn := by
  have hseq : CNNNet.sequence_embeddings m batch =
      batch.map (cnnChans m) := rfl
  constructor
  · simp only [cnnFirstStage, hbn, Bool.false_eq_true, if_false, hseq,
      List.map_map]
    by_cases hrc : m.residual_connections
    · simp only [if_pos hrc, addTensors_eq, List.map_map]
      rw [zipWith_map_same]
      apply List.map_congr_left
      intro a _
      simp only [cnnElementFirst, if_pos hrc, Function.comp]
    · simp only [if_neg hrc]
      apply List.map_congr_left
      intro a _
      simp only [cnnElementFirst, if_neg hrc, Function.comp]
  · simp only [cnnFirstStage, hbn, Bool.false_eq_true, if_false]

/-! ### Rectangularity and prefix agreement of channel-major tensors -/

/-- A channel-major per-sequence tensor with `D` channels of length `M`. -/
def Rect (D M : ℕ) (x : List (List ℚ)) : Prop :=
  x.length = D ∧ ∀ c, c < D → (x.getD c []).length = M

/-- Two tensors agree at all positions strictly below `n` (in every
channel). -/
def EqUpto (n : ℕ) (x y : List (List ℚ)) : Prop :=
  ∀ c i, i < n → (x.getD c []).getD i 0 = (y.getD c []).getD i 0

theorem rfw_eq (k d : ℕ) (hk : 1 ≤ k) (hd : 1 ≤ d) :
    receptive_field_width k d = 1 + (k - 1) * d := by
  obtain ⟨k', rfl⟩ : ∃ k', k = k' + 1 := ⟨k - 1, by omega⟩
  obtain ⟨d', rfl⟩ : ∃ d', d = d' + 1 := ⟨d - 1, by omega⟩
  simp only [receptive_field_width, Nat.add_sub_cancel]
  ring

theorem rfw_sub_one (k d : ℕ) (hk : 1 ≤ k) (hd : 1 ≤ d) :
    receptive_field_width k d - 1 = (k - 1) * d := by
  rw [rfw_eq k d hk hd]
  omega

theorem rfw_loop_len (k d M : ℕ) (hk : 1 ≤ k) (hd : 1 ≤ d) :
    receptive_field_width k d - 1 + M - d * (k - 1) = M := by
  rw [rfw_sub_one k d hk hd, Nat.mul_comm d (k - 1)]
  generalize (k - 1) * d = p
  omega

theorem rfw_first_len (k d L : ℕ) (hk : 1 ≤ k) (hd : 1 ≤ d) :
    receptive_field_width k d + L - d * (k - 1) = L + 1 := by
  rw [rfw_eq k d hk hd, Nat.mul_comm d (k - 1)]
  generalize (k - 1) * d = p
  omega

theorem Rect_map_pad (D M p : ℕ) (x : List (List ℚ)) (h : Rect D M x) :
    Rect D (p + M) (x.map (padLeft p)) := by
  refine ⟨by simpa using h.1, ?_⟩
  intro c hc
  rw [getD_map_lt _ _ c (by rw [h.1]; exact hc) [], padLeft_length,
    h.2 c hc]

theorem padChans_getD (p : ℕ) (x : List (List ℚ)) (c i : ℕ) :
    ((x.map (padLeft p)).getD c []).getD i 0 =
      if i < p then 0 else (x.getD c []).getD (i - p) 0 := by
  by_cases hc : c < x.length
  · rw [getD_map_lt _ _ c hc [], padLeft_getD]
  · rw [getD_oob _ c (by simpa using Nat.le_of_not_lt hc),
      getD_oob _ c (Nat.le_of_not_lt hc)]
    simp

theorem convLayerApply_rect (D : ℕ) (layer : ConvLayer) (k d : ℕ)
    (x : List (List ℚ)) :
    Rect D ((x.getD 0 []).length - d * (k - 1))
      (convLayerApply D layer k d x) := by
  constructor
  · simp [convLayerApply]
  · intro c hc
    rw [convLayerApply, getD_range_map _ _ c [], if_pos hc]
    simp

theorem convLayerApply_getD (D : ℕ) (layer : ConvLayer) (k d : ℕ)
    (x : List (List ℚ)) (c t : ℕ) (hc : c < D)
    (ht : t < (x.getD 0 []).length - d * (k - 1)) :
    ((convLayerApply D layer k d x).getD c []).getD t 0 =
      layer.bias c + ((List.range D).map fun c2 =>
        ((List.range k).map fun j =>
          layer.weight c c2 j * (x.getD c2 []).getD (t + j * d) 0).sum).sum
    := by
  rw [convLayerApply, getD_range_map _ _ c [], if_pos hc,
    getD_range_map _ _ t 0, if_pos ht]

theorem convLayerApply_eqUpto (D : ℕ) (layer : ConvLayer) (k d M n : ℕ)
    (x y : List (List ℚ)) (hD : 1 ≤ D) (hx : Rect D M x) (hy : Rect D M y)
    (h : EqUpto n x y) :
    EqUpto (n - d * (k - 1)) (convLayerApply D layer k d x)
      (convLayerApply D layer k d y) := by
  intro c i hi
  have hMx : (x.getD 0 []).length = M := hx.2 0 hD
  have hMy : (y.getD 0 []).length = M := hy.2 0 hD
  by_cases hc : c < D
  · by_cases hiM : i < M - d * (k - 1)
    · rw [convLayerApply_getD D layer k d x c i hc (by omega),
        convLayerApply_getD D layer k d y c i hc (by omega)]
      congr 1
      apply sum_range_map_congr
      intro c2 hc2
      apply sum_range_map_congr
      intro j hj
      have hjd : i + j * d < n := by
        have h1 : j * d ≤ (k - 1) * d := Nat.mul_le_mul_right d (by omega)
        have h2 : (k - 1) * d = d * (k - 1) := Nat.mul_comm _ _
        omega
      exact congrArg (fun z => layer.weight c c2 j * z) (h c2 (i + j * d)
        hjd)
    · have lx := (convLayerApply_rect D layer k d x).2 c hc
      have ly := (convLayerApply_rect D layer k d y).2 c hc
      rw [getD_oob _ i (by omega), getD_oob _ i (by omega)]
  · have lx := (convLayerApply_rect D layer k d x).1
    have ly := (convLayerApply_rect D layer k d y).1
    rw [getD_oob _ c (by omega), getD_oob _ c (by omega)]

theorem Rect_map_sigma (D M : ℕ) (σ : ℚ → ℚ) (x : List (List ℚ))
    (h : Rect D M x) : Rect D M (x.map (List.map σ)) := by
  refine ⟨by simpa using h.1, ?_⟩
  intro c hc
  rw [getD_map_lt _ _ c (by rw [h.1]; exact hc) []]
  rw [List.length_map, h.2 c hc]

theorem sigma_eqUpto (D M n : ℕ) (σ : ℚ → ℚ) (x y : List (List ℚ))
    (hx : Rect D M x) (hy : Rect D M y) (hn : n ≤ M) (h : EqUpto n x y) :
    EqUpto n (x.map (List.map σ)) (y.map (List.map σ)) := by
  intro c i hi
  by_cases hc : c < D
  · rw [getD_map_lt _ _ c (by rw [hx.1]; exact hc) [],
      getD_map_lt _ _ c (by rw [hy.1]; exact hc) []]
    rw [getD_map_lt _ _ i (by rw [hx.2 c hc]; omega) 0,
      getD_map_lt _ _ i (by rw [hy.2 c hc]; omega) 0]
    rw [h c i hi]
  · rw [getD_oob _ c (by rw [List.length_map, hx.1]; omega),
      getD_oob _ c (by rw [List.length_map, hy.1]; omega)]

theorem zipWith_getD {α β γ : Type} (f : α → β → γ) (x : List α)
    (y : List β) (c : ℕ) (hx : c < x.length) (hy : c < y.length)
    (da : α) (db : β) (dc : γ) :
    (List.zipWith f x y).getD c dc = f (x.getD c da) (y.getD c db) := by
  have hz : c < (List.zipWith f x y).length := by
    rw [List.length_zipWith]; omega
  rw [List.getD_eq_getElem?_getD, List.getElem?_eq_getElem hz,
    List.getD_eq_getElem?_getD, List.getElem?_eq_getElem hx,
    List.getD_eq_getElem?_getD, List.getElem?_eq_getElem hy]
  simp [List.getElem_zipWith]

theorem addChans_rect (D M : ℕ) (x y : List (List ℚ)) (hx : Rect D M x)
    (hy : Rect D M y) : Rect D M (addChans x y) := by
  constructor
  · rw [addChans, List.length_zipWith, hx.1, hy.1, Nat.min_self]
  · intro c hc
    rw [addChans, zipWith_getD _ x y c (by rw [hx.1]; exact hc)
      (by rw [hy.1]; exact hc) [] [] []]
    rw [List.length_zipWith, hx.2 c hc, hy.2 c hc, Nat.min_self]

theorem addChans_getD (D M : ℕ) (x y : List (List ℚ)) (hx : Rect D M x)
    (hy : Rect D M y) (c i : ℕ) (hc : c < D) :
    ((addChans x y).getD c []).getD i 0 =
      (x.getD c []).getD i 0 + (y.getD c []).getD i 0 := by
  rw [addChans, zipWith_getD _ x y c (by rw [hx.1]; exact hc)
    (by rw [hy.1]; exact hc) [] [] []]
  by_cases hi : i < M
  · rw [zipWith_getD _ _ _ i (by rw [hx.2 c hc]; omega)
      (by rw [hy.2 c hc]; omega) 0 0 0]
  · have hz : (List.zipWith (· + ·) (x.getD c []) (y.getD c [])).length ≤
        i := by
      rw [List.length_zipWith, hx.2 c hc, hy.2 c hc, Nat.min_self]; omega
    have hxl : ((x.getD c []).length) ≤ i := by rw [hx.2 c hc]; omega
    have hyl : ((y.getD c []).length) ≤ i := by rw [hy.2 c hc]; omega
    rw [getD_oob _ i hz, getD_oob _ i hxl, getD_oob _ i hyl]
    norm_num

theorem addChans_eqUpto (D M n : ℕ) (x y x' y' : List (List ℚ))
    (hx : Rect D M x) (hy : Rect D M y) (hx' : Rect D M x')
    (hy' : Rect D M y') (h1 : EqUpto n x x') (h2 : EqUpto n y y') :
    EqUpto n (addChans x y) (addChans x' y') := by
  intro c i hi
  by_cases hc : c < D
  · rw [addChans_getD D M x y hx hy c i hc,
      addChans_getD D M x' y' hx' hy' c i hc, h1 c i hi, h2 c i hi]
  · rw [getD_oob _ c (by rw [(addChans_rect D M x y hx hy).1]; omega),
      getD_oob _ c (by rw [(addChans_rect D M x' y' hx' hy').1]; omega)]

/-- The layer loop (batch norm off) preserves rectangularity and prefix
agreement: every layer's causal left-padding exactly compensates its
convolution's receptive field. -/
theorem cnnElementLoop_causal (m : CNNNet)
    (layers : List (ConvLayer × ℕ × ℕ)) (M n : ℕ)
    (hkd : ∀ l ∈ layers, 1 ≤ l.2.1 ∧ 1 ≤ l.2.2)
    (hD : 1 ≤ m.embedding_dim) (hn : n ≤ M)
    (x y : List (List ℚ)) (hx : Rect m.embedding_dim M x)
    (hy : Rect m.embedding_dim M y) (hEq : EqUpto n x y) :
    Rect m.embedding_dim M (cnnElementLoop m layers x) ∧
    Rect m.embedding_dim M (cnnElementLoop m layers y) ∧
    EqUpto n (cnnElementLoop m layers x) (cnnElementLoop m layers y) := by
  induction layers generalizing x y with
  | nil => exact ⟨hx, hy, hEq⟩
  | cons l rest ih =>
      obtain ⟨layer, k, d⟩ := l
      have hk : 1 ≤ k := (hkd (layer, k, d) (List.mem_cons_self _ _)).1
      have hd1 : 1 ≤ d := (hkd (layer, k, d) (List.mem_cons_self _ _)).2
      have hkdr : ∀ l' ∈ rest, 1 ≤ l'.2.1 ∧ 1 ≤ l'.2.2 :=
        fun l' hl' => hkd l' (List.mem_cons_of_mem _ hl')
      have hx1 : Rect m.embedding_dim (receptive_field_width k d - 1 + M)
          (x.map (padLeft (receptive_field_width k d - 1))) :=
        Rect_map_pad _ _ _ _ hx
      have hy1 : Rect m.embedding_dim (receptive_field_width k d - 1 + M)
          (y.map (padLeft (receptive_field_width k d - 1))) :=
        Rect_map_pad _ _ _ _ hy
      have hEq1 : EqUpto (receptive_field_width k d - 1 + n)
          (x.map (padLeft (receptive_field_width k d - 1)))
          (y.map (padLeft (receptive_field_width k d - 1))) := by
        intro c i hi
        rw [padChans_getD, padChans_getD]
        split
        · rfl
        · exact hEq c _ (by omega)
      have hlen1 : ((x.map (padLeft (receptive_field_width k d - 1))).getD
          0 []).length = receptive_field_width k d - 1 + M := hx1.2 0 hD
      have hlen1' : ((y.map (padLeft (receptive_field_width k d - 1))).getD
          0 []).length = receptive_field_width k d - 1 + M := hy1.2 0 hD
      have hx2 : Rect m.embedding_dim M
          (convLayerApply m.embedding_dim layer k d
            (x.map (padLeft (receptive_field_width k d - 1)))) := by
        have h0 := convLayerApply_rect m.embedding_dim layer k d
          (x.map (padLeft (receptive_field_width k d - 1)))
        rw [hlen1, rfw_loop_len k d M hk hd1] at h0
        exact h0
      have hy2 : Rect m.embedding_dim M
          (convLayerApply m.embedding_dim layer k d
            (y.map (padLeft (receptive_field_width k d - 1)))) := by
        have h0 := convLayerApply_rect m.embedding_dim layer k d
          (y.map (padLeft (receptive_field_width k d - 1)))
        rw [hlen1', rfw_loop_len k d M hk hd1] at h0
        exact h0
      have hEq2 : EqUpto n
          (convLayerApply m.embedding_dim layer k d
            (x.map (padLeft (receptive_field_width k d - 1))))
          (convLayerApply m.embedding_dim layer k d
            (y.map (padLeft (receptive_field_width k d - 1)))) := by
        have h0 := convLayerApply_eqUpto m.embedding_dim layer k d
          (receptive_field_width k d - 1 + M)
          (receptive_field_width k d - 1 + n) _ _ hD hx1 hy1 hEq1
        rw [rfw_loop_len k d n hk hd1] at h0
        exact h0
      have hx3 := Rect_map_sigma m.embedding_dim M m.nonlinearity _ hx2
      have hy3 := Rect_map_sigma m.embedding_dim M m.nonlinearity _ hy2
      have hEq3 := sigma_eqUpto m.embedding_dim M n m.nonlinearity _ _ hx2
        hy2 hn hEq2
      simp only [cnnElementLoop]
      by_cases hrc : m.residual_connections
      · rw [if_pos hrc, if_pos hrc]
        exact ih hkdr _ _
          (addChans_rect _ _ _ _ hx3 hx) (addChans_rect _ _ _ _ hy3 hy)
          (addChans_eqUpto m.embedding_dim M n _ _ _ _ hx3 hx hy3 hy hEq3
            hEq)
      · rw [if_neg hrc, if_neg hrc]
        exact ih hkdr _ _ hx3 hy3 hEq3

theorem rfw_first_causal_len (k d t : ℕ) (hk : 1 ≤ k) (hd : 1 ≤ d) :
    t + receptive_field_width k d - d * (k - 1) = t + 1 := by
  rw [rfw_eq k d hk hd, Nat.mul_comm d (k - 1)]
  generalize (k - 1) * d = p
  omega

theorem cnnChans_rect (m : CNNNet) (items : List ℕ) :
    Rect m.embedding_dim items.length (cnnChans m items) := by
  constructor
  · simp [cnnChans]
  · intro c hc
    rw [cnnChans, getD_range_map _ _ c [], if_pos hc]
    simp

theorem cnnChans_getD (m : CNNNet) (items : List ℕ) (c s : ℕ)
    (hc : c < m.embedding_dim) (hs : s < items.length) :
    ((cnnChans m items).getD c []).getD s 0 =
      (m.item_embeddings (items.getD s 0)).getD c 0 := by
  rw [cnnChans, getD_range_map _ _ c [], if_pos hc,
    getD_map_lt _ _ s hs 0]

/-- The first layer (batch norm off) produces an `(L+1)`-long causal tensor;
editing the input at position `t` only affects outputs from position `t + 1`
on. -/
theorem cnnElementFirst_causal (m : CNNNet) (hD : 1 ≤ m.embedding_dim)
    (hk : 1 ≤ m.kernel_width.getD 0 0) (hd : 1 ≤ m.dilation.getD 0 0)
    (items items' : List ℕ) (t : ℕ)
    (hlen : items'.length = items.length) (ht : t < items.length)
    (hagree : ∀ s, s ≠ t → items.getD s 0 = items'.getD s 0) :
    Rect m.embedding_dim (items.length + 1) (cnnElementFirst m items) ∧
    Rect m.embedding_dim (items.length + 1) (cnnElementFirst m items') ∧
    EqUpto (t + 1) (cnnElementFirst m items) (cnnElementFirst m items') :=
    by
  have hc1 : Rect m.embedding_dim items.length (cnnChans m items) :=
    cnnChans_rect m items
  have hc1' : Rect m.embedding_dim items.length (cnnChans m items') := by
    have h0 := cnnChans_rect m items'
    rw [hlen] at h0
    exact h0
  have hxp : Rect m.embedding_dim
      (receptive_field_width (m.kernel_width.getD 0 0)
        (m.dilation.getD 0 0) + items.length)
      ((cnnChans m items).map (padLeft (receptive_field_width
        (m.kernel_width.getD 0 0) (m.dilation.getD 0 0)))) :=
    Rect_map_pad _ _ _ _ hc1
  have hyp : Rect m.embedding_dim
      (receptive_field_width (m.kernel_width.getD 0 0)
        (m.dilation.getD 0 0) + items.length)
      ((cnnChans m items').map (padLeft (receptive_field_width
        (m.kernel_width.getD 0 0) (m.dilation.getD 0 0)))) :=
    Rect_map_pad _ _ _ _ hc1'
  have hpadEq : EqUpto (t + receptive_field_width
      (m.kernel_width.getD 0 0) (m.dilation.getD 0 0))
      ((cnnChans m items).map (padLeft (receptive_field_width
        (m.kernel_width.getD 0 0) (m.dilation.getD 0 0))))
      ((cnnChans m items').map (padLeft (receptive_field_width
        (m.kernel_width.getD 0 0) (m.dilation.getD 0 0)))) := by
    intro c i hi
    rw [padChans_getD, padChans_getD]
    split
    · rfl
    · rename_i hip
      by_cases hcD : c < m.embedding_dim
      · by_cases hir : i - receptive_field_width (m.kernel_width.getD 0 0)
            (m.dilation.getD 0 0) < items.length
        · rw [cnnChans_getD m items c _ hcD hir,
            cnnChans_getD m items' c _ hcD (by omega)]
          rw [hagree _ (by omega)]
        · rw [getD_oob _ _ (by rw [hc1.2 c hcD]; omega),
            getD_oob _ _ (by rw [hc1'.2 c hcD]; omega)]
      · rw [getD_oob _ c (by rw [hc1.1]; omega),
          getD_oob _ c (by rw [hc1'.1]; omega)]
  have hlenx : (((cnnChans m items).map (padLeft (receptive_field_width
      (m.kernel_width.getD 0 0) (m.dilation.getD 0 0)))).getD 0 []).length
      = receptive_field_width (m.kernel_width.getD 0 0)
        (m.dilation.getD 0 0) + items.length := hxp.2 0 hD
  have hleny : (((cnnChans m items').map (padLeft (receptive_field_width
      (m.kernel_width.getD 0 0) (m.dilation.getD 0 0)))).getD 0 []).length
      = receptive_field_width (m.kernel_width.getD 0 0)
        (m.dilation.getD 0 0) + items.length := hyp.2 0 hD
  have hx2 : Rect m.embedding_dim (items.length + 1)
      (convLayerApply m.embedding_dim (m.cnn_layers.getD 0 defaultConvLayer)
        (m.kernel_width.getD 0 0) (m.dilation.getD 0 0)
        ((cnnChans m items).map (padLeft (receptive_field_width
          (m.kernel_width.getD 0 0) (m.dilation.getD 0 0))))) := by
    have h0 := convLayerApply_rect m.embedding_dim
      (m.cnn_layers.getD 0 defaultConvLayer) (m.kernel_width.getD 0 0)
      (m.dilation.getD 0 0)
      ((cnnChans m items).map (padLeft (receptive_field_width
        (m.kernel_width.getD 0 0) (m.dilation.getD 0 0))))
    rw [hlenx, rfw_first_len _ _ _ hk hd] at h0
    exact h0
  have hy2 : Rect m.embedding_dim (items.length + 1)
      (convLayerApply m.embedding_dim (m.cnn_layers.getD 0 defaultConvLayer)
        (m.kernel_width.getD 0 0) (m.dilation.getD 0 0)
        ((cnnChans m items').map (padLeft (receptive_field_width
          (m.kernel_width.getD 0 0) (m.dilation.getD 0 0))))) := by
    have h0 := convLayerApply_rect m.embedding_dim
      (m.cnn_layers.getD 0 defaultConvLayer) (m.kernel_width.getD 0 0)
      (m.dilation.getD 0 0)
      ((cnnChans m items').map (padLeft (receptive_field_width
        (m.kernel_width.getD 0 0) (m.dilation.getD 0 0))))
    rw [hleny, rfw_first_len _ _ _ hk hd] at h0
    exact h0
  have hEq2 : EqUpto (t + 1)
      (convLayerApply m.embedding_dim (m.cnn_layers.getD 0 defaultConvLayer)
        (m.kernel_width.getD 0 0) (m.dilation.getD 0 0)
        ((cnnChans m items).map (padLeft (receptive_field_width
          (m.kernel_width.getD 0 0) (m.dilation.getD 0 0)))))
      (convLayerApply m.embedding_dim (m.cnn_layers.getD 0 defaultConvLayer)
        (m.kernel_width.getD 0 0) (m.dilation.getD 0 0)
        ((cnnChans m items').map (padLeft (receptive_field_width
          (m.kernel_width.getD 0 0) (m.dilation.getD 0 0))))) := by
    have h0 := convLayerApply_eqUpto m.embedding_dim
      (m.cnn_layers.getD 0 defaultConvLayer) (m.kernel_width.getD 0 0)
      (m.dilation.getD 0 0)
      (receptive_field_width (m.kernel_width.getD 0 0)
        (m.dilation.getD 0 0) + items.length)
      (t + receptive_field_width (m.kernel_width.getD 0 0)
        (m.dilation.getD 0 0)) _ _ hD hxp hyp hpadEq
    rw [rfw_first_causal_len _ _ _ hk hd] at h0
    exact h0
  have ht1 : t + 1 ≤ items.length + 1 := by omega
  have hx3 := Rect_map_sigma m.embedding_dim (items.length + 1)
    m.nonlinearity _ hx2
  have hy3 := Rect_map_sigma m.embedding_dim (items.length + 1)
    m.nonlinearity _ hy2
  have hEq3 := sigma_eqUpto m.embedding_dim (items.length + 1) (t + 1)
    m.nonlinearity _ _ hx2 hy2 ht1 hEq2
  have hrx : Rect m.embedding_dim (items.length + 1)
      ((cnnChans m items).map (padLeft 1)) := by
    have h0 := Rect_map_pad m.embedding_dim items.length 1 _ hc1
    rw [Nat.add_comm] at h0
    exact h0
  have hry : Rect m.embedding_dim (items.length + 1)
      ((cnnChans m items').map (padLeft 1)) := by
    have h0 := Rect_map_pad m.embedding_dim items.length 1 _ hc1'
    rw [Nat.add_comm] at h0
    exact h0
  have hrEq : EqUpto (t + 1) ((cnnChans m items).map (padLeft 1))
      ((cnnChans m items').map (padLeft 1)) := by
    intro c i hi
    rw [padChans_getD, padChans_getD]
    split
    · rfl
    · rename_i hip
      by_cases hcD : c < m.embedding_dim
      · by_cases hir : i - 1 < items.length
        · rw [cnnChans_getD m items c _ hcD hir,
            cnnChans_getD m items' c _ hcD (by omega)]
          rw [hagree _ (by omega)]
        · rw [getD_oob _ _ (by rw [hc1.2 c hcD]; omega),
            getD_oob _ _ (by rw [hc1'.2 c hcD]; omega)]
      · rw [getD_oob _ c (by rw [hc1.1]; omega),
          getD_oob _ c (by rw [hc1'.1]; omega)]
  rw [cnnElementFirst, cnnElementFirst]
  by_cases hrc : m.residual_connections
  · rw [if_pos hrc, if_pos hrc]
    exact ⟨addChans_rect _ _ _ _ hx3 hrx, addChans_rect _ _ _ _ hy3 hry,
      addChans_eqUpto m.embedding_dim (items.length + 1) (t + 1) _ _ _ _
        hx3 hrx hy3 hry hEq3 hrEq⟩
  · rw [if_neg hrc, if_neg hrc]
    exact ⟨hx3, hy3, hEq3⟩

/-- Batch-level `all_representations` as a per-sequence map (batch norm
off). -/
theorem cnn_allReps_bn_off (m : CNNNet) (hbn : m.batch_norm = false)
    (batch : List (List ℕ)) :
    (CNNNet.user_representation m batch).1.1 =
      batch.map fun items =>
        (cnnElementLoop m (cnnRestLayers m)
          (cnnElementFirst m items)).map List.dropLast := by
  rw [cnn_userRep_unfold]
  show ((cnnLayersLoop m (cnnRestLayers m) 0 _ _).1.map fun chans =>
    chans.map List.dropLast) = _
  rw [cnnLayersLoop_bn_off m hbn, (cnnFirstStage_bn_off m hbn batch).1,
    List.map_map, List.map_map]
  apply List.map_congr_left
  intro a _
  rfl

/-- Causality of the convolutional encoder with batch norm disabled:
editing one sequence of the batch at position `t` leaves all representations
of strictly earlier positions (of every batch element) unchanged. -/
theorem cnn_causal (m : CNNNet) (hbn : m.batch_norm = false)
    (hD : 1 ≤ m.embedding_dim)
    (hdl : m.dilation.length = m.kernel_width.length)
    (hcl : m.cnn_layers.length = m.kernel_width.length)
    (hnl : 1 ≤ m.kernel_width.length)
    (hkall : ∀ k ∈ m.kernel_width, 1 ≤ k)
    (hdall : ∀ d ∈ m.dilation, 1 ≤ d)
    (batch batch' : List (List ℕ)) (nb t : ℕ)
    (hN : batch'.length = batch.length)
    (hoth : ∀ n, n ≠ nb → batch.getD n [] = batch'.getD n [])
    (hlen : (batch'.getD nb []).length = (batch.getD nb []).length)
    (ht : t < (batch.getD nb []).length)
    (hagree : ∀ s, s ≠ t → (batch.getD nb []).getD s 0 =
      (batch'.getD nb []).getD s 0) :
    ∀ n c s, s < t →
      (((CNNNet.user_representation m batch).1.1.getD n []).getD
        c []).getD s 0 =
      (((CNNNet.user_representation m batch').1.1.getD n []).getD
        c []).getD s 0 := by
  have hk0 : 1 ≤ m.kernel_width.getD 0 0 := by
    have hmem : m.kernel_width.getD 0 0 = m.kernel_width.get ⟨0, by
        omega⟩ := by
      rw [List.getD_eq_getElem?_getD,
        List.getElem?_eq_getElem (by omega : 0 < m.kernel_width.length)]
      rfl
    rw [hmem]
    exact hkall _ (List.get_mem _ _ _)
  have hd0 : 1 ≤ m.dilation.getD 0 0 := by
    have hmem : m.dilation.getD 0 0 = m.dilation.get ⟨0, by omega⟩ := by
      rw [List.getD_eq_getElem?_getD,
        List.getElem?_eq_getElem (by omega : 0 < m.dilation.length)]
      rfl
    rw [hmem]
    exact hdall _ (List.get_mem _ _ _)
  have hkdRest : ∀ l ∈ cnnRestLayers m, 1 ≤ l.2.1 ∧ 1 ≤ l.2.2 := by
    intro l hl
    rw [cnnRestLayers] at hl
    obtain ⟨hl1, hl2⟩ := List.of_mem_zip hl
    obtain ⟨hk2, hd2⟩ := List.of_mem_zip hl2
    exact ⟨hkall _ (List.mem_of_mem_drop hk2),
      hdall _ (List.mem_of_mem_drop hd2)⟩
  intro n c s hs
  rw [cnn_allReps_bn_off m hbn batch, cnn_allReps_bn_off m hbn batch']
  by_cases hn : n < batch.length
  · rw [getD_map_lt _ batch n hn [], getD_map_lt _ batch' n (by omega) []]
    by_cases hneq : n = nb
    · subst hneq
      have hfirst := cnnElementFirst_causal m hD hk0 hd0
        (batch.getD n []) (batch'.getD n []) t hlen ht hagree
      have hloop := cnnElementLoop_causal m (cnnRestLayers m)
        ((batch.getD n []).length + 1) (t + 1) hkdRest hD (by omega)
        _ _ hfirst.1 hfirst.2.1 hfirst.2.2
      by_cases hcD : c < m.embedding_dim
      · rw [getD_map_lt _ _ c (by rw [hloop.1.1]; exact hcD) [],
          getD_map_lt _ _ c (by rw [hloop.2.1.1]; exact hcD) []]
        rw [dropLast_getD _ s (by rw [hloop.1.2 c hcD]; omega),
          dropLast_getD _ s (by rw [hloop.2.1.2 c hcD]; omega)]
        exact hloop.2.2 c s (by omega)
      · rw [getD_oob _ c (by rw [List.length_map, hloop.1.1]; omega),
          getD_oob _ c (by rw [List.length_map, hloop.2.1.1]; omega)]
    · rw [hoth n hneq]
  · rw [getD_oob _ n (by rw [List.length_map]; omega),
      getD_oob _ n (by rw [List.length_map]; omega)]

/-- Causality of the pooling encoder: follows from the cumulative-sum
formula, whose position-`s` value reads only the first `s` items. -/
theorem pool_causal (m : PoolNet) (items items' : List ℕ) (t : ℕ)
    (hlen : items'.length = items.length) (ht : t < items.length)
    (hagree : ∀ s, s ≠ t → items.getD s 0 = items'.getD s 0) :
    ∀ s c, s < t →
      ((PoolNet.user_representation m items).1.getD c []).getD s 0 =
      ((PoolNet.user_representation m items').1.getD c []).getD s 0 := by
  intro s c hs
  by_cases hc : c < m.embedding_dim
  · rw [pool_allReps_getD m items c s hc (by omega),
      pool_allReps_getD m items' c s hc (by omega)]
    have h1 : ∀ j, j < s →
        (m.item_embeddings (items.getD j 0)).getD c 0 =
        (m.item_embeddings (items'.getD j 0)).getD c 0 := by
      intro j hj
      rw [hagree j (by omega)]
    rw [sum_range_map_congr _ _ s h1,
      sum_range_map_congr
        (fun j => if (m.item_embeddings (items.getD j 0)).getD c 0 = 0
          then (0 : ℚ) else 1)
        (fun j => if (m.item_embeddings (items'.getD j 0)).getD c 0 = 0
          then (0 : ℚ) else 1) s
        (fun j hj => by simp only [h1 j hj])]
  · rw [pool_userRep_fst, pool_userRep_fst]
    rw [getD_oob _ c (by rw [List.length_map, List.length_map,
        List.length_range]; omega),
      getD_oob _ c (by rw [List.length_map, List.length_map,
        List.length_range]; omega)]

/-- The hidden-state sequence named `user_representations` in
`LSTMNet.user_representation`. -/
def lstmStates (m : LSTMNet) (items : List ℕ) : List (List ℚ) :=
  lstmOutputs m.lstm
    (List.replicate m.embedding_dim 0, List.replicate m.embedding_dim 0)
    (LSTMNet.sequence_embeddings m items)

theorem lstm_userRep_fst (m : LSTMNet) (items : List ℕ) :
    (LSTMNet.user_representation m items).1 =
      ((List.range m.embedding_dim).map fun c =>
        (lstmStates m items).map fun h => h.getD c 0).map
          List.dropLast := rfl

theorem lstm_userRep_snd (m : LSTMNet) (items : List ℕ) :
    (LSTMNet.user_representation m items).2 =
      ((List.range m.embedding_dim).map fun c =>
        (lstmStates m items).map fun h => h.getD c 0).map lastD := rfl

theorem lstmStates_length (m : LSTMNet) (items : List ℕ) :
    (lstmStates m items).length = items.length + 1 := by
  rw [lstmStates, lstmOutputs_length, LSTMNet.sequence_embeddings]
  simp

/-- Causality of the recurrent encoder: the hidden state at position `s`
only depends on the first `s + 1` inputs of the zero-prepended stream. -/
theorem lstm_causal (m : LSTMNet) (items items' : List ℕ) (t : ℕ)
    (hlen : items'.length = items.length) (ht : t < items.length)
    (hagree : ∀ s, s ≠ t → items.getD s 0 = items'.getD s 0) :
    ∀ s c, s < t →
      ((LSTMNet.user_representation m items).1.getD c []).getD s 0 =
      ((LSTMNet.user_representation m items').1.getD c []).getD s 0 := by
  intro s c hs
  have htake : (LSTMNet.sequence_embeddings m items).take (s + 1) =
      (LSTMNet.sequence_embeddings m items').take (s + 1) := by
    rw [LSTMNet.sequence_embeddings, LSTMNet.sequence_embeddings]
    rw [List.take_succ_cons, List.take_succ_cons]
    have hts : items.take s = items'.take s := by
      apply take_eq_of_getD items items' s 0
      · intro j hj
        exact hagree j (by omega)
      · omega
      · omega
    rw [← List.map_take, ← List.map_take, hts]
  have hstates := lstmOutputs_take_congr m.lstm
    (List.replicate m.embedding_dim 0, List.replicate m.embedding_dim 0)
    (s + 1) _ _ htake
  by_cases hc : c < m.embedding_dim
  · rw [lstm_userRep_fst, lstm_userRep_fst, List.map_map, List.map_map]
    rw [getD_range_map (List.dropLast ∘ fun c =>
        (lstmStates m items).map fun h => h.getD c 0) m.embedding_dim c [],
      if_pos hc,
      getD_range_map (List.dropLast ∘ fun c =>
        (lstmStates m items').map fun h => h.getD c 0) m.embedding_dim c [],
      if_pos hc]
    show (List.dropLast ((lstmStates m items).map fun h =>
      h.getD c 0)).getD s 0 = (List.dropLast ((lstmStates m items').map
        fun h => h.getD c 0)).getD s 0
    have hb1 : s + 1 < ((lstmStates m items).map fun h =>
        h.getD c 0).length := by
      rw [List.length_map, lstmStates_length]; omega
    have hb2 : s + 1 < ((lstmStates m items').map fun h =>
        h.getD c 0).length := by
      rw [List.length_map, lstmStates_length]; omega
    rw [dropLast_getD _ s hb1, dropLast_getD _ s hb2]
    have hs1 : s < (lstmStates m items).length := by
      rw [lstmStates_length]; omega
    have hs2 : s < (lstmStates m items').length := by
      rw [lstmStates_length]; omega
    rw [getD_map_lt _ _ s hs1 [], getD_map_lt _ _ s hs2 []]
    have := getD_eq_of_take_eq (lstmStates m items) (lstmStates m items')
      (s + 1) s [] hstates (by omega)
    rw [this]
  · rw [lstm_userRep_fst, lstm_userRep_fst]
    rw [getD_oob _ c (by rw [List.length_map, List.length_map,
        List.length_range]; omega),
      getD_oob _ c (by rw [List.length_map, List.length_map,
        List.length_range]; omega)]

/-- C1 amended: causality holds for the pooling and recurrent encoders for
every configuration, and for the causal convolutional encoder whenever batch
normalization is disabled (with batch normalization enabled in training
mode it fails, see the counterexample): changing the item at position
`t > 0` leaves all representations of positions `0..t-1` unchanged.  The
concrete receptive-field fact also holds: a single layer with
`kernel_width = 3`, `dilation = 1` has receptive field width `3`. -/
theorem causality_amended :
    (∀ (m : PoolNet) (items items' : List ℕ) (t : ℕ), 0 < t →
      items'.length = items.length → t < items.length →
      (∀ s, s ≠ t → items.getD s 0 = items'.getD s 0) →
      ∀ s c, s < t →
        ((PoolNet.user_representation m items).1.getD c []).getD s 0 =
        ((PoolNet.user_representation m items').1.getD c []).getD s 0) ∧
    (∀ (m : LSTMNet) (items items' : List ℕ) (t : ℕ), 0 < t →
      items'.length = items.length → t < items.length →
      (∀ s, s ≠ t → items.getD s 0 = items'.getD s 0) →
      ∀ s c, s < t →
        ((LSTMNet.user_representation m items).1.getD c []).getD s 0 =
        ((LSTMNet.user_representation m items').1.getD c []).getD s 0) ∧
    (∀ (m : CNNNet), m.batch_norm = false → 1 ≤ m.embedding_dim →
      m.dilation.length = m.kernel_width.length →
      m.cnn_layers.length = m.kernel_width.length →
      1 ≤ m.kernel_width.length →
      (∀ k ∈ m.kernel_width, 1 ≤ k) → (∀ d ∈ m.dilation, 1 ≤ d) →
      ∀ (batch batch' : List (List ℕ)) (nb t : ℕ), 0 < t →
        batch'.length = batch.length →
        (∀ n, n ≠ nb → batch.getD n [] = batch'.getD n []) →
        (batch'.getD nb []).length = (batch.getD nb []).length →
        t < (batch.getD nb []).length →
        (∀ s, s ≠ t → (batch.getD nb []).getD s 0 =
          (batch'.getD nb []).getD s 0) →
        ∀ n c s, s < t →
          (((CNNNet.user_representation m batch).1.1.getD n []).getD
            c []).getD s 0 =
          (((CNNNet.user_representation m batch').1.1.getD n []).getD
            c []).getD s 0) ∧
    receptive_field_width 3 1 = 3 := by
  refine ⟨?_, ?_, ?_, rfl⟩
  · intro m items items' t _ hlen ht hagree
    exact pool_causal m items items' t hlen ht hagree
  · intro m items items' t _ hlen ht hagree
    exact lstm_causal m items items' t hlen ht hagree
  · intro m hbn hD hdl hcl hnl hkall hdall batch batch' nb t _ hN hoth
      hlen ht hagree
    exact cnn_causal m hbn hD hdl hcl hnl hkall hdall batch batch' nb t
      hN hoth hlen ht hagree

/-- The causality-counterexample CNN with batch normalization disabled. -/
def cnnPlain : CNNNet :=
  { cnnLeak with batch_norm := false }

/-- Witness for C1's amended theorem: each causality conjunct instantiated
at a concrete module, the edit `[1, 2, 3] ↦ [1, 2, 4]` at position 2 (or
`[5, 0, 7] ↦ [5, 0, 5]` for pooling), checking position 1 and, for the
receptive field, `kernel_width = 3`, `dilation = 1`. -/
theorem causality_amended_witness :
    (((PoolNet.user_representation poolC4 [5, 0, 7]).1.getD 0 []).getD 1 0 =
      ((PoolNet.user_representation poolC4 [5, 0, 5]).1.getD 0 []).getD
        1 0) ∧
    (((LSTMNet.user_representation lstmTiny [1, 2, 3]).1.getD 0 []).getD
        1 0 =
      ((LSTMNet.user_representation lstmTiny [1, 2, 4]).1.getD 0 []).getD
        1 0) ∧
    ((((CNNNet.user_representation cnnPlain [[1, 2, 3]]).1.1.getD
        0 []).getD 0 []).getD 1 0 =
      (((CNNNet.user_representation cnnPlain [[1, 2, 4]]).1.1.getD
        0 []).getD 0 []).getD 1 0) ∧
    receptive_field_width 3 1 = 3 := by
  have hagree1 : ∀ s, s ≠ 2 → ([5, 0, 7] : List ℕ).getD s 0 =
      ([5, 0, 5] : List ℕ).getD s 0 := by
    intro s hs
    match s with
    | 0 => rfl
    | 1 => rfl
    | 2 => exact absurd rfl hs
    | n + 3 => rfl
  have hagree2 : ∀ s, s ≠ 2 → ([1, 2, 3] : List ℕ).getD s 0 =
      ([1, 2, 4] : List ℕ).getD s 0 := by
    intro s hs
    match s with
    | 0 => rfl
    | 1 => rfl
    | 2 => exact absurd rfl hs
    | n + 3 => rfl
  have hoth : ∀ n, n ≠ 0 → ([[1, 2, 3]] : List (List ℕ)).getD n [] =
      ([[1, 2, 4]] : List (List ℕ)).getD n [] := by
    intro n hn
    match n with
    | 0 => exact absurd rfl hn
    | k + 1 => rfl
  refine ⟨?_, ?_, ?_, causality_amended.2.2.2⟩
  · exact causality_amended.1 poolC4 [5, 0, 7] [5, 0, 5] 2 (by decide)
      (by decide) (by decide) hagree1 1 0 (by decide)
  · exact causality_amended.2.1 lstmTiny [1, 2, 3] [1, 2, 4] 2 (by decide)
      (by decide) (by decide) hagree2 1 0 (by decide)
  · exact causality_amended.2.2.1 cnnPlain rfl (by decide) rfl rfl
      (by decide)
      (by intro k hk; simp [cnnPlain, cnnLeak] at hk; omega)
      (by intro d hd; simp [cnnPlain, cnnLeak] at hd; omega)
      [[1, 2, 3]] [[1, 2, 4]] 0 2 (by decide) (by decide) hoth (by decide)
      (by decide) hagree2 0 0 1 (by decide)

/-! ### Batch-level rectangularity for the shape invariant -/

/-- A batch tensor of shape `N × D × M`. -/
def RectB (N D M : ℕ) (xs : List (List (List ℚ))) : Prop :=
  xs.length = N ∧ ∀ n, n < N → Rect D M (xs.getD n [])

theorem RectB_map (N D M D' M' : ℕ) (f : List (List ℚ) → List (List ℚ))
    (xs : List (List (List ℚ)))
    (hf : ∀ e, Rect D M e → Rect D' M' (f e)) (h : RectB N D M xs) :
    RectB N D' M' (xs.map f) := by
  refine ⟨by simp [h.1], ?_⟩
  intro n hn
  rw [getD_map_lt _ _ n (by rw [h.1]; omega) []]
  exact hf _ (h.2 n hn)

theorem batchNormTrain_rectB (bn : BNLayer) (N D M : ℕ)
    (xs : List (List (List ℚ))) (h : RectB N D M xs) :
    RectB N D M (batchNormTrain bn D xs).1 := by
  show RectB N D M (xs.map _)
  refine ⟨by simp [h.1], ?_⟩
  intro n hn
  rw [getD_map_lt _ _ n (by rw [h.1]; omega) []]
  constructor
  · simp
  · intro c hc
    rw [getD_range_map _ _ c [], if_pos hc, List.length_map]
    exact (h.2 n hn).2 c hc

theorem addTensors_rectB (N D M : ℕ) (x y : List (List (List ℚ)))
    (hx : RectB N D M x) (hy : RectB N D M y) :
    RectB N D M (addTensors x y) := by
  rw [addTensors_eq]
  constructor
  · rw [List.length_zipWith, hx.1, hy.1, Nat.min_self]
  · intro n hn
    rw [zipWith_getD addChans x y n (by rw [hx.1]; omega)
      (by rw [hy.1]; omega) [] [] []]
    exact addChans_rect D M _ _ (hx.2 n hn) (hy.2 n hn)

/-- The layer loop preserves the batch shape `N × D × (L + 1)` (with or
without batch normalization). -/
theorem cnnLayersLoop_rectB (m : CNNNet)
    (layers : List (ConvLayer × ℕ × ℕ)) (N M : ℕ)
    (hkd : ∀ l ∈ layers, 1 ≤ l.2.1 ∧ 1 ≤ l.2.2)
    (hD : 1 ≤ m.embedding_dim) (i : ℕ) (xs : List (List (List ℚ)))
    (bns : List BNLayer) (hx : RectB N m.embedding_dim M xs) :
    RectB N m.embedding_dim M (cnnLayersLoop m layers i xs bns).1 := by
  induction layers generalizing i xs bns with
  | nil => exact hx
  | cons l rest ih =>
      obtain ⟨layer, k, d⟩ := l
      have hk : 1 ≤ k := (hkd (layer, k, d) (List.mem_cons_self _ _)).1
      have hd1 : 1 ≤ d := (hkd (layer, k, d) (List.mem_cons_self _ _)).2
      have hkdr : ∀ l' ∈ rest, 1 ≤ l'.2.1 ∧ 1 ≤ l'.2.2 :=
        fun l' hl' => hkd l' (List.mem_cons_of_mem _ hl')
      have h1 : RectB N m.embedding_dim
          (receptive_field_width k d - 1 + M)
          (xs.map fun chans =>
            chans.map (padLeft (receptive_field_width k d - 1))) :=
        RectB_map N m.embedding_dim M m.embedding_dim _ _ xs
          (fun e he => Rect_map_pad _ _ _ _ he) hx
      have h2 : RectB N m.embedding_dim M
          ((xs.map fun chans =>
            chans.map (padLeft (receptive_field_width k d - 1))).map
              (convLayerApply m.embedding_dim layer k d)) := by
        apply RectB_map N m.embedding_dim
          (receptive_field_width k d - 1 + M) m.embedding_dim M _ _ _ h1
        intro e he
        have h0 := convLayerApply_rect m.embedding_dim layer k d e
        rw [he.2 0 hD, rfw_loop_len k d M hk hd1] at h0
        exact h0
      have h3 : RectB N m.embedding_dim M
          (((xs.map fun chans =>
            chans.map (padLeft (receptive_field_width k d - 1))).map
              (convLayerApply m.embedding_dim layer k d)).map fun chans =>
                chans.map (List.map m.nonlinearity)) :=
        RectB_map N m.embedding_dim M m.embedding_dim M _ _
          (fun e he => Rect_map_sigma _ _ _ _ he) h2
      simp only [cnnLayersLoop]
      by_cases hB : m.batch_norm
      · simp only [if_pos hB]
        have h4 := batchNormTrain_rectB (bns.getD i defaultBNLayer) N
          m.embedding_dim M _ h3
        by_cases hrc : m.residual_connections
        · simp only [if_pos hrc]
          exact ih hkdr (i + 1) _ _ (addTensors_rectB N m.embedding_dim M _ _
            h4 hx)
        · simp only [if_neg hrc]
          exact ih hkdr (i + 1) _ _ h4
      · simp only [if_neg hB]
        by_cases hrc : m.residual_connections
        · simp only [if_pos hrc]
          exact ih hkdr (i + 1) _ _ (addTensors_rectB N m.embedding_dim M _ _
            h3 hx)
        · simp only [if_neg hrc]
          exact ih hkdr (i + 1) _ _ h3

theorem cnnSeqEmb_rectB (m : CNNNet) (batch : List (List ℕ)) (L : ℕ)
    (hL : ∀ s ∈ batch, s.length = L) :
    RectB batch.length m.embedding_dim L
      (CNNNet.sequence_embeddings m batch) := by
  rw [show CNNNet.sequence_embeddings m batch = batch.map (cnnChans m)
    from rfl]
  refine ⟨by simp, ?_⟩
  intro n hn
  rw [getD_map_lt _ _ n hn []]
  have h0 := cnnChans_rect m (batch.getD n [])
  rw [hL _ (getD_mem batch n hn [])] at h0
  exact h0

/-- The first stage produces the batch shape `N × D × (L + 1)`. -/
theorem cnnFirstStage_rectB (m : CNNNet) (hD : 1 ≤ m.embedding_dim)
    (hk0 : 1 ≤ m.kernel_width.getD 0 0) (hd0 : 1 ≤ m.dilation.getD 0 0)
    (batch : List (List ℕ)) (L : ℕ) (hL : ∀ s ∈ batch, s.length = L) :
    RectB batch.length m.embedding_dim (L + 1)
      (cnnFirstStage m batch).1 := by
  have hemb := cnnSeqEmb_rectB m batch L hL
  have h1 : RectB batch.length m.embedding_dim
      (receptive_field_width (m.kernel_width.getD 0 0)
        (m.dilation.getD 0 0) + L)
      ((CNNNet.sequence_embeddings m batch).map fun chans =>
        chans.map (padLeft (receptive_field_width
          (m.kernel_width.getD 0 0) (m.dilation.getD 0 0)))) :=
    RectB_map _ _ _ _ _ _ _ (fun e he => Rect_map_pad _ _ _ _ he) hemb
  have h2 : RectB batch.length m.embedding_dim (L + 1)
      (((CNNNet.sequence_embeddings m batch).map fun chans =>
        chans.map (padLeft (receptive_field_width
          (m.kernel_width.getD 0 0) (m.dilation.getD 0 0)))).map
            (convLayerApply m.embedding_dim
              (m.cnn_layers.getD 0 defaultConvLayer)
              (m.kernel_width.getD 0 0) (m.dilation.getD 0 0))) := by
    refine RectB_map _ _ (receptive_field_width (m.kernel_width.getD 0 0)
      (m.dilation.getD 0 0) + L) _ _ _ _ ?_ h1
    intro e he
    have h0 := convLayerApply_rect m.embedding_dim
      (m.cnn_layers.getD 0 defaultConvLayer) (m.kernel_width.getD 0 0)
      (m.dilation.getD 0 0) e
    rw [he.2 0 hD, rfw_first_len _ _ _ hk0 hd0] at h0
    exact h0
  have h3 : RectB batch.length m.embedding_dim (L + 1)
      ((((CNNNet.sequence_embeddings m batch).map fun chans =>
        chans.map (padLeft (receptive_field_width
          (m.kernel_width.getD 0 0) (m.dilation.getD 0 0)))).map
            (convLayerApply m.embedding_dim
              (m.cnn_layers.getD 0 defaultConvLayer)
              (m.kernel_width.getD 0 0) (m.dilation.getD 0 0))).map
                fun chans => chans.map (List.map m.nonlinearity)) :=
    RectB_map _ _ _ _ _ _ _ (fun e he => Rect_map_sigma _ _ _ _ he) h2
  have hres : RectB batch.length m.embedding_dim (L + 1)
      ((CNNNet.sequence_embeddings m batch).map fun chans =>
        chans.map (padLeft 1)) := by
    have h0 := RectB_map batch.length m.embedding_dim L m.embedding_dim
      (1 + L) (fun chans => chans.map (padLeft 1)) _
      (fun e he => Rect_map_pad _ _ _ _ he) hemb
    rw [Nat.add_comm] at h0
    exact h0
  show RectB batch.length m.embedding_dim (L + 1)
    (if m.residual_connections then _ else _)
  by_cases hB : m.batch_norm
  · simp only [cnnFirstStage, if_pos hB]
    have h4 := batchNormTrain_rectB (m.bn.getD 0 defaultBNLayer)
      batch.length m.embedding_dim (L + 1) _ h3
    by_cases hrc : m.residual_connections
    · simp only [if_pos hrc]
      exact addTensors_rectB _ _ _ _ _ h4 hres
    · simp only [if_neg hrc]
      exact h4
  · simp only [cnnFirstStage, if_neg hB]
    by_cases hrc : m.residual_connections
    · simp only [if_pos hrc]
      exact addTensors_rectB _ _ _ _ _ h3 hres
    · simp only [if_neg hrc]
      exact h3

/-! ### C6: the shape invariant -/

/-- C6: for an input batch of `N` sequences of length `L`, every encoder's
`user_representation` returns `all_representations` of shape `N × D × L`
and `final_representation` of shape `N × D` (for the convolutional encoder
under any valid configuration: per-layer lists of matching lengths, at
least one layer, kernel widths and dilations at least 1, any residual and
batch-norm settings). -/
theorem shape_invariant :
    (∀ (m : PoolNet) (batch : List (List ℕ)) (L : ℕ),
      (∀ s ∈ batch, s.length = L) →
      ((PoolNet.user_representationBatch m batch).1.length = batch.length ∧
       (PoolNet.user_representationBatch m batch).2.length = batch.length ∧
       ∀ n, n < batch.length →
         (((PoolNet.user_representationBatch m batch).1.getD n []).length =
           m.embedding_dim ∧
          ((PoolNet.user_representationBatch m batch).2.getD n []).length =
           m.embedding_dim ∧
          ∀ c, c < m.embedding_dim →
           (((PoolNet.user_representationBatch m batch).1.getD n []).getD
             c []).length = L))) ∧
    (∀ (m : LSTMNet) (batch : List (List ℕ)) (L : ℕ),
      (∀ s ∈ batch, s.length = L) →
      ((LSTMNet.user_representationBatch m batch).1.length = batch.length ∧
       (LSTMNet.user_representationBatch m batch).2.length = batch.length ∧
       ∀ n, n < batch.length →
         (((LSTMNet.user_representationBatch m batch).1.getD n []).length =
           m.embedding_dim ∧
          ((LSTMNet.user_representationBatch m batch).2.getD n []).length =
           m.embedding_dim ∧
          ∀ c, c < m.embedding_dim →
           (((LSTMNet.user_representationBatch m batch).1.getD n []).getD
             c []).length = L))) ∧
    (∀ (m : CNNNet) (batch : List (List ℕ)) (L : ℕ),
      1 ≤ m.embedding_dim →
      m.dilation.length = m.kernel_width.length →
      m.cnn_layers.length = m.kernel_width.length →
      1 ≤ m.kernel_width.length →
      (∀ k ∈ m.kernel_width, 1 ≤ k) → (∀ d ∈ m.dilation, 1 ≤ d) →
      (∀ s ∈ batch, s.length = L) →
      ((CNNNet.user_representation m batch).1.1.length = batch.length ∧
       (CNNNet.user_representation m batch).1.2.length = batch.length ∧
       ∀ n, n < batch.length →
         (((CNNNet.user_representation m batch).1.1.getD n []).length =
           m.embedding_dim ∧
          ((CNNNet.user_representation m batch).1.2.getD n []).length =
           m.embedding_dim ∧
          ∀ c, c < m.embedding_dim →
           (((CNNNet.user_representation m batch).1.1.getD n []).getD
             c []).length = L))) := by
  refine ⟨?_, ?_, ?_⟩
  · intro m batch L hL
    refine ⟨by simp [PoolNet.user_representationBatch], by
      simp [PoolNet.user_representationBatch], ?_⟩
    intro n hn
    have hx : (PoolNet.user_representationBatch m batch).1.getD n [] =
        (PoolNet.user_representation m (batch.getD n [])).1 := by
      rw [PoolNet.user_representationBatch]
      exact getD_map_lt _ batch n hn [] []
    have hy : (PoolNet.user_representationBatch m batch).2.getD n [] =
        (PoolNet.user_representation m (batch.getD n [])).2 := by
      rw [PoolNet.user_representationBatch]
      exact getD_map_lt _ batch n hn [] []
    have hlen : (batch.getD n []).length = L := hL _ (getD_mem batch n hn [])
    refine ⟨?_, ?_, ?_⟩
    · rw [hx, pool_userRep_fst]
      simp
    · rw [hy, pool_userRep_snd]
      simp
    · intro c hc
      rw [hx, pool_userRep_fst, List.map_map,
        getD_range_map (List.dropLast ∘ poolStates m _) m.embedding_dim
          c [], if_pos hc]
      show (List.dropLast (poolStates m _ c)).length = L
      rw [List.length_dropLast]
      simp [poolStates]
      simpa [List.getD_eq_getElem?_getD] using hlen
  · intro m batch L hL
    refine ⟨by simp [LSTMNet.user_representationBatch], by
      simp [LSTMNet.user_representationBatch], ?_⟩
    intro n hn
    have hx : (LSTMNet.user_representationBatch m batch).1.getD n [] =
        (LSTMNet.user_representation m (batch.getD n [])).1 := by
      rw [LSTMNet.user_representationBatch]
      exact getD_map_lt _ batch n hn [] []
    have hy : (LSTMNet.user_representationBatch m batch).2.getD n [] =
        (LSTMNet.user_representation m (batch.getD n [])).2 := by
      rw [LSTMNet.user_representationBatch]
      exact getD_map_lt _ batch n hn [] []
    have hlen : (batch.getD n []).length = L := hL _ (getD_mem batch n hn [])
    refine ⟨?_, ?_, ?_⟩
    · rw [hx, lstm_userRep_fst]
      simp
    · rw [hy, lstm_userRep_snd]
      simp
    · intro c hc
      rw [hx, lstm_userRep_fst, List.map_map,
        getD_range_map (List.dropLast ∘ fun c =>
          (lstmStates m _).map fun h => h.getD c 0) m.embedding_dim c [],
        if_pos hc]
      show (List.dropLast ((lstmStates m _).map fun h =>
        h.getD c 0)).length = L
      rw [List.length_dropLast, List.length_map, lstmStates_length, hlen]
      omega
  · intro m batch L hD hdl hcl hnl hkall hdall hL
    have hk0 : 1 ≤ m.kernel_width.getD 0 0 := by
      have hmem : m.kernel_width.getD 0 0 = m.kernel_width.get ⟨0, by
          omega⟩ := by
        rw [List.getD_eq_getElem?_getD,
          List.getElem?_eq_getElem (by omega : 0 < m.kernel_width.length)]
        rfl
      rw [hmem]
      exact hkall _ (List.get_mem _ _ _)
    have hd0 : 1 ≤ m.dilation.getD 0 0 := by
      have hmem : m.dilation.getD 0 0 = m.dilation.get ⟨0, by omega⟩ := by
        rw [List.getD_eq_getElem?_getD,
          List.getElem?_eq_getElem (by omega : 0 < m.dilation.length)]
        rfl
      rw [hmem]
      exact hdall _ (List.get_mem _ _ _)
    have hkdRest : ∀ l ∈ cnnRestLayers m, 1 ≤ l.2.1 ∧ 1 ≤ l.2.2 := by
      intro l hl
      rw [cnnRestLayers] at hl
      obtain ⟨hl1, hl2⟩ := List.of_mem_zip hl
      obtain ⟨hk2, hd2⟩ := List.of_mem_zip hl2
      exact ⟨hkall _ (List.mem_of_mem_drop hk2),
        hdall _ (List.mem_of_mem_drop hd2)⟩
    have hrect := cnnLayersLoop_rectB m (cnnRestLayers m) batch.length
      (L + 1) hkdRest hD 0 (cnnFirstStage m batch).1
      (cnnFirstStage m batch).2
      (cnnFirstStage_rectB m hD hk0 hd0 batch L hL)
    rw [cnn_userRep_unfold]
    refine ⟨by simp [hrect.1], by simp [hrect.1], ?_⟩
    intro n hn
    have hchan : ((cnnLayersLoop m (cnnRestLayers m) 0
        (cnnFirstStage m batch).1 (cnnFirstStage m batch).2).1.map
          fun chans => chans.map List.dropLast).getD n [] =
        ((cnnLayersLoop m (cnnRestLayers m) 0 (cnnFirstStage m batch).1
          (cnnFirstStage m batch).2).1.getD n []).map List.dropLast :=
      getD_map_lt _ _ n (by rw [hrect.1]; omega) [] []
    have hchan2 : ((cnnLayersLoop m (cnnRestLayers m) 0
        (cnnFirstStage m batch).1 (cnnFirstStage m batch).2).1.map
          fun chans => chans.map lastD).getD n [] =
        ((cnnLayersLoop m (cnnRestLayers m) 0 (cnnFirstStage m batch).1
          (cnnFirstStage m batch).2).1.getD n []).map lastD :=
      getD_map_lt _ _ n (by rw [hrect.1]; omega) [] []
    refine ⟨?_, ?_, ?_⟩
    · show (((cnnLayersLoop m (cnnRestLayers m) 0
        (cnnFirstStage m batch).1 (cnnFirstStage m batch).2).1.map
          fun chans => chans.map List.dropLast).getD n []).length =
        m.embedding_dim
      rw [hchan, List.length_map, (hrect.2 n hn).1]
    · show (((cnnLayersLoop m (cnnRestLayers m) 0
        (cnnFirstStage m batch).1 (cnnFirstStage m batch).2).1.map
          fun chans => chans.map lastD).getD n []).length =
        m.embedding_dim
      rw [hchan2, List.length_map, (hrect.2 n hn).1]
    · intro c hc
      show ((((cnnLayersLoop m (cnnRestLayers m) 0
        (cnnFirstStage m batch).1 (cnnFirstStage m batch).2).1.map
          fun chans => chans.map List.dropLast).getD n []).getD
            c []).length = L
      rw [hchan]
      rw [getD_map_lt _ _ c (by rw [(hrect.2 n hn).1]; exact hc) [] []]
      rw [List.length_dropLast, (hrect.2 n hn).2 c hc]
      omega

/-- Witness for C6: the shape facts instantiated at concrete modules and a
two-sequence batch of length-3 sequences. -/
theorem shape_invariant_witness :
    ((PoolNet.user_representationBatch poolC4
        [[5, 0, 7], [7, 7, 7]]).1.length = 2 ∧
      (((PoolNet.user_representationBatch poolC4
        [[5, 0, 7], [7, 7, 7]]).1.getD 0 []).getD 0 []).length = 3) ∧
    ((((LSTMNet.user_representationBatch lstmTiny
        [[1, 2, 3]]).1.getD 0 []).getD 0 []).length = 3) ∧
    ((CNNNet.user_representation cnnLeak [[1, 2, 3]]).1.1.length = 1 ∧
      (((CNNNet.user_representation cnnLeak [[1, 2, 3]]).1.1.getD
        0 []).getD 0 []).length = 3 ∧
      ((CNNNet.user_representation cnnLeak [[1, 2, 3]]).1.2.getD
        0 []).length = 1) := by
  have hL1 : ∀ s ∈ ([[5, 0, 7], [7, 7, 7]] : List (List ℕ)),
      s.length = 3 := by decide
  have hL2 : ∀ s ∈ ([[1, 2, 3]] : List (List ℕ)), s.length = 3 := by decide
  have hp := shape_invariant.1 poolC4 [[5, 0, 7], [7, 7, 7]] 3 hL1
  have hl := shape_invariant.2.1 lstmTiny [[1, 2, 3]] 3 hL2
  have hcnn := shape_invariant.2.2 cnnLeak [[1, 2, 3]] 3 (by decide) rfl
    rfl (by decide)
    (by intro k hk; simp [cnnLeak] at hk; omega)
    (by intro d hd; simp [cnnLeak] at hd; omega) hL2
  exact ⟨⟨hp.1, ((hp.2.2 0 (by decide)).2.2 0 (by decide))⟩,
    ((hl.2.2 0 (by decide)).2.2 0 (by decide)),
    hcnn.1, ((hcnn.2.2 0 (by decide)).2.2 0 (by decide)),
    ((hcnn.2.2 0 (by decide)).2.1)⟩

end Spotlight
